import Mathlib

/-!
# config-reloader-sidecar: the change-to-signal pipeline

A shallow embedding of `main.go`.  Every function of the program is a Lean
function that returns its Go result together with the list of calls it made
to the outside world (log lines, file reads, process listings, signals,
watcher calls), in program order.  The outside world is a parameter: a
`World` answers the reads of one reload attempt, a `Host` answers the calls
of start-up.

Go strings are modelled as their sequence of runes (`List Char`); `len` is
the length in bytes of the UTF-8 form.  A byte that is not part of a valid
UTF-8 sequence would decode to U+FFFD, which is neither white space nor a
digit, so such content behaves like content holding that rune.  The byte
loops of `strconv` are run over the runes: every byte of a rune outside ASCII
is at least 0x80 and fails the digit test, as the rune does.

The library functions (`strings.TrimSpace`, `strings.Split`, `strconv.Atoi`)
follow the Go standard library, `Atoi` with its fast path and its
`ParseInt` path, for an `int` of `intSize` bits.  The goroutine of `main` is
a function over what its `select` receives; `main` itself runs up to
`<-done`.  `defer watcher.Close()` never runs: `main` blocks or the process
exits through `log.Fatal`.
-/

namespace ConfigReloader

/-! ## Go values and the library functions `main.go` calls -/

/-- Go `string`, as the sequence of its runes. -/
abbrev GoString := List Char

/-- Go `len(s)`: the number of bytes of the string. -/
def len (s : GoString) : Nat := (s.map Char.utf8Size).sum

/-- Go `unicode.IsSpace`: the Latin-1 switch, then the `White_Space` table. -/
def IsSpace (r : Char) : Bool :=
  let v := r.toNat
  if v ≤ 0xFF then
    decide (v = 0x09 ∨ v = 0x0A ∨ v = 0x0B ∨ v = 0x0C ∨ v = 0x0D ∨ v = 0x20 ∨ v = 0x85 ∨ v = 0xA0)
  else
    decide (v = 0x1680 ∨ (0x2000 ≤ v ∧ v ≤ 0x200A) ∨ v = 0x2028 ∨ v = 0x2029 ∨ v = 0x202F
      ∨ v = 0x205F ∨ v = 0x3000)

/-- Go `strings.asciiSpace`: the table behind the ASCII fast path of `TrimSpace`. -/
def asciiSpace (c : Char) : Bool :=
  let v := c.toNat
  decide (v = 0x09 ∨ v = 0x0A ∨ v = 0x0B ∨ v = 0x0C ∨ v = 0x0D ∨ v = 0x20)

/-- Go `strings.TrimLeftFunc`. -/
def TrimLeftFunc (s : GoString) (f : Char → Bool) : GoString := s.dropWhile f

/-- Go `strings.TrimRightFunc`. -/
def TrimRightFunc (s : GoString) (f : Char → Bool) : GoString := (s.reverse.dropWhile f).reverse

/-- Go `strings.TrimFunc`. -/
def TrimFunc (s : GoString) (f : Char → Bool) : GoString := TrimRightFunc (TrimLeftFunc s f) f

/-- The second loop of `strings.TrimSpace`, walking `s[start:stop]` from its
end; the argument is that slice reversed. -/
def trimSpaceStop : GoString → GoString
  | [] => []
  | c :: rest =>
    if 0x80 ≤ c.toNat then TrimRightFunc (c :: rest).reverse IsSpace
    else if asciiSpace c then trimSpaceStop rest
    else (c :: rest).reverse

/-- The first loop of `strings.TrimSpace`, walking the string from its start. -/
def trimSpaceStart : GoString → GoString
  | [] => trimSpaceStop []
  | c :: rest =>
    if 0x80 ≤ c.toNat then TrimFunc (c :: rest) IsSpace
    else if asciiSpace c then trimSpaceStart rest
    else trimSpaceStop (c :: rest).reverse

/-- Go `strings.TrimSpace`. -/
def TrimSpace (s : GoString) : GoString := trimSpaceStart s

/-- The two errors of `strconv` (`ErrSyntax`, `ErrRange`). -/
inductive NumError where
  | ErrSyntax
  | ErrRange
  deriving DecidableEq, Repr

/-- A mathematical integer as a `w`-bit two's complement machine integer. -/
def wrapInt (w : Nat) (x : Int) : Int :=
  (x + ((2 ^ (w - 1) : Nat) : Int)) % ((2 ^ w : Nat) : Int) - ((2 ^ (w - 1) : Nat) : Int)

/-- The digit test of `strconv`: the value of a byte in `'0'..'9'`. -/
def digit? (c : Char) : Option Nat :=
  if 48 ≤ c.toNat ∧ c.toNat ≤ 57 then some (c.toNat - 48) else none

/-- The loop of the fast path of `strconv.Atoi`: `n = n*10 + int(ch)` in a
`w`-bit `int`, a syntax error (`none`) at the first byte outside `'0'..'9'`. -/
def atoiFast (w : Nat) : GoString → Int → Option Int
  | [], n => some n
  | ch :: rest, n =>
    match digit? ch with
    | none => none
    | some d => atoiFast w rest (wrapInt w (n * 10 + (d : Int)))

/-- `maxUint64`. -/
def maxUint64 : Nat := 2 ^ 64 - 1

/-- The loop of `strconv.ParseUint` at base 10: `n` is a `uint64`, `maxVal`
is `1<<bitSize - 1`. -/
def parseUintLoop (maxVal : Nat) : GoString → Nat → Nat × Option NumError
  | [], n => (n, none)
  | c :: rest, n =>
    match digit? c with
    | none => (0, some .ErrSyntax)
    | some d =>
      if n ≥ maxUint64 / 10 + 1 then (maxVal, some .ErrRange)
      else
        let n10 := (n * 10) % 2 ^ 64
        let n1 := (n10 + d) % 2 ^ 64
        if n1 < n10 ∨ n1 > maxVal then (maxVal, some .ErrRange)
        else parseUintLoop maxVal rest n1

/-- Go `strconv.ParseUint(s, 10, 0)` on a platform whose `int` has `w` bits. -/
def ParseUint (w : Nat) (s : GoString) : Nat × Option NumError :=
  if s = [] then (0, some .ErrSyntax)
  else parseUintLoop (2 ^ w - 1) s 0

/-- Go `strconv.ParseInt(s, 10, 0)` on a platform whose `int` has `w` bits;
the result is an `int64`. -/
def ParseInt (w : Nat) (s : GoString) : Int × Option NumError :=
  match s with
  | [] => (0, some .ErrSyntax)
  | c :: rest =>
    let neg := decide (c = '-')
    let body := if c = '+' ∨ c = '-' then rest else c :: rest
    let r := ParseUint w body
    if r.2 = some .ErrSyntax then (0, some .ErrSyntax)
    else
      let un := r.1
      let cutoff := 2 ^ (w - 1)
      if !neg ∧ un ≥ cutoff then (wrapInt 64 ((cutoff : Int) - 1), some .ErrRange)
      else if neg ∧ un > cutoff then (wrapInt 64 (-(cutoff : Int)), some .ErrRange)
      else
        let n := wrapInt 64 (un : Int)
        (if neg then wrapInt 64 (-n) else n, none)

/-- Go `strconv.Atoi` on a platform whose `int` has `w` bits (`strconv.IntSize`). -/
def Atoi (w : Nat) (s : GoString) : Int × Option NumError :=
  let sLen := len s
  if (w = 32 ∧ 0 < sLen ∧ sLen < 10) ∨ (w = 64 ∧ 0 < sLen ∧ sLen < 19) then
    match s with
    | [] => (0, some .ErrSyntax)
    | c :: rest =>
      let signed := decide (c = '-' ∨ c = '+')
      if signed ∧ rest = [] then (0, some .ErrSyntax)
      else
        match atoiFast w (if signed then rest else c :: rest) 0 with
        | none => (0, some .ErrSyntax)
        | some n => (if c = '-' then wrapInt w (-n) else n, none)
  else
    let r := ParseInt w s
    (wrapInt w r.1, r.2)

/-- The loop of `strings.genSplit` for a one-byte separator: at most `n` cuts,
each at the first separator of what is left (`strings.Index`). -/
def genSplit (sep : Char) : Nat → GoString → List GoString
  | 0, s => [s]
  | n + 1, s =>
    if sep ∈ s then
      s.takeWhile (fun c => decide (c ≠ sep)) ::
        genSplit sep n ((s.dropWhile (fun c => decide (c ≠ sep))).drop 1)
    else [s]

/-- Go `strings.Split(s, sep)` for a one-byte separator: `Count(s, sep)` cuts. -/
def Split (s : GoString) (sep : Char) : List GoString := genSplit sep (s.count sep) s

/-! ## The collaborators -/

/-- An error value handed back by a collaborator (the OS, fsnotify, go-ps). -/
abbrev OsError := String

/-- Go `syscall.Signal`, an `int`; no signal has number 0. -/
abbrev Signal := Int

/-- Go `syscall.SIGHUP`. -/
def SIGHUP : Signal := 1

/-- One entry of the process snapshot of go-ps (`ps.Process`). -/
structure Process where
  Executable : GoString
  Pid : Int
  deriving DecidableEq, Repr

/-- Go `fsnotify.Op`, a bit set. -/
abbrev Op := Nat

/-- Go `fsnotify.Create`. -/
def Create : Op := 1
/-- Go `fsnotify.Write`. -/
def Write : Op := 2
/-- Go `fsnotify.Remove`. -/
def Remove : Op := 4
/-- Go `fsnotify.Rename`. -/
def Rename : Op := 8
/-- Go `fsnotify.Chmod`. -/
def Chmod : Op := 16

/-- Go `fsnotify.Event`. -/
structure Event where
  Name : GoString
  Op : Op
  deriving DecidableEq, Repr

/-- The errors `main.go` builds, one constructor for each `fmt.Errorf`. -/
inductive Error where
  /-- `failed to list processes: %v` -/
  | listFailed (err : OsError)
  /-- `no process matching %s found` -/
  | noMatch (process : GoString)
  /-- `failed to read pid file %s: %v` -/
  | readFailed (path : GoString) (err : OsError)
  /-- `pid file %s is empty` -/
  | emptyPidFile (path : GoString)
  /-- `pid file %s is not a valid integer: %v` -/
  | notInteger (path : GoString) (err : NumError)
  /-- `could not send signal: %v` -/
  | killFailed (err : OsError)
  deriving DecidableEq, Repr

/-- The log lines `main.go` writes, one constructor for each call of `log`. -/
inductive LogLine where
  /-- `mandatory env var CONFIG_DIR is empty, exiting` -/
  | configDirEmpty
  /-- `PROCESS_NAME and PROCESS_PID_FILE are mutually exclusive, exiting` -/
  | mutuallyExclusive
  /-- `one of PROCESS_NAME or PROCESS_PID_FILE must be set, exiting` -/
  | targetMissing
  /-- `RELOAD_SIGNAL is empty, defaulting to SIGHUP` -/
  | defaultingToSIGHUP
  /-- `cannot find signal for RELOAD_SIGNAL: %s` -/
  | unknownSignal (reloadSignalStr : GoString)
  /-- `starting with CONFIG_DIR=%s, PROCESS_NAME=%s, PROCESS_PID_FILE=%s, RELOAD_SIGNAL=%s` -/
  | starting (configDir processName processPIDFile : GoString) (reloadSignal : Signal)
  /-- `log.Fatal(err)` after `NewWatcher` or `watcher.Add` -/
  | fatalError (err : OsError)
  /-- `event: ...` (verbose only) -/
  | event (event : Event)
  /-- `modified file: ...` -/
  | modifiedFile (name : GoString)
  /-- `error: ...` for a failed reload -/
  | reloadError (err : Error)
  /-- `error: ...` for a value of `watcher.Errors` -/
  | watcherError (err : OsError)
  /-- `found executable %s (pid: %d)` -/
  | foundExecutable (executable : GoString) (pid : Int)
  /-- `signal %s sent to pid %d (from %s)` -/
  | signalSentFromFile (signal : Signal) (pid : Int) (pidFile : GoString)
  /-- `signal %s sent to %s (pid: %d)` -/
  | signalSentToProcess (signal : Signal) (process : GoString) (pid : Int)
  deriving DecidableEq, Repr

/-- A call the program makes to the outside world. -/
inductive Call where
  | log (line : LogLine)
  | ReadFile (path : GoString)
  | Processes
  | Kill (pid : Int) (signal : Signal)
  | NewWatcher
  | Add (dir : GoString)
  | Exit (code : Nat)
  deriving DecidableEq, Repr

/-- What the outside world answers during one reload attempt. -/
structure World where
  /-- `os.ReadFile` -/
  ReadFile : GoString → Except OsError GoString
  /-- `ps.Processes` -/
  Processes : Except OsError (List Process)
  /-- `syscall.Kill`: `none` is a nil error -/
  Kill : Int → Signal → Option OsError

/-! ## `main.go` -/

/-- The `for` loop of `findPID`. -/
def findPIDLoop (process : GoString) : List Process → (Int × Option Error) × List Call
  | [] => ((-1, some (.noMatch process)), [])
  | p :: rest =>
    if p.Executable = process then
      ((p.Pid, none), [.log (.foundExecutable p.Executable p.Pid)])
    else findPIDLoop process rest

/-- Go `findPID` (main.go lines 94 to 108). -/
def findPID (world : World) (process : GoString) : (Int × Option Error) × List Call :=
  match world.Processes with
  | .error err => ((-1, some (.listFailed err)), [.Processes])
  | .ok processes =>
    let r := findPIDLoop process processes
    (r.1, .Processes :: r.2)

/-- Go `pidFromFile` (main.go lines 110 to 127); `intSize` is the width of `int`. -/
def pidFromFile (intSize : Nat) (world : World) (path : GoString) :
    (Int × Option Error) × List Call :=
  match world.ReadFile path with
  | .error err => ((-1, some (.readFailed path err)), [.ReadFile path])
  | .ok content =>
    let pidString := TrimSpace content
    if pidString = [] then ((-1, some (.emptyPidFile path)), [.ReadFile path])
    else
      match Atoi intSize pidString with
      | (_, some err) => ((-1, some (.notInteger path err)), [.ReadFile path])
      | (pid, none) => ((pid, none), [.ReadFile path])

/-- Go `getPID` (main.go lines 129 to 134). -/
def getPID (intSize : Nat) (world : World) (processName pidFile : GoString) :
    (Int × Option Error) × List Call :=
  if pidFile ≠ [] then pidFromFile intSize world pidFile
  else findPID world processName

/-- Go `reloadProcess` (main.go lines 136 to 159). -/
def reloadProcess (intSize : Nat) (world : World) (process pidFile : GoString)
    (signal : Signal) : Option Error × List Call :=
  let r := getPID intSize world process pidFile
  match r.1.2 with
  | some err => (some err, r.2)
  | none =>
    let pid := r.1.1
    match world.Kill pid signal with
    | some err => (some (.killFailed err), r.2 ++ [.Kill pid signal])
    | none =>
      if pidFile ≠ [] then
        (none, r.2 ++ [.Kill pid signal, .log (.signalSentFromFile signal pid pidFile)])
      else
        (none, r.2 ++ [.Kill pid signal, .log (.signalSentToProcess signal process pid)])

/-- What the goroutine of `main` captures from start-up. -/
structure Config where
  processName : GoString
  processPIDFile : GoString
  reloadSignal : Signal
  verbose : Bool
  deriving DecidableEq, Repr

/-- The `case event, ok := <-watcher.Events` arm with `ok` true
(main.go lines 64 to 73). -/
def handleEvent (intSize : Nat) (cfg : Config) (world : World) (event : Event) : List Call :=
  (if cfg.verbose then [Call.log (.event event)] else []) ++
  (if event.Op &&& Chmod ≠ Chmod then
    let r := reloadProcess intSize world cfg.processName cfg.processPIDFile cfg.reloadSignal
    [Call.log (.modifiedFile event.Name)] ++ r.2 ++
      (match r.1 with
       | some err => [Call.log (.reloadError err)]
       | none => [])
  else [])

/-- What one `select` of the goroutine receives. -/
inductive Recv where
  | event (event : Event)
  | eventsClosed
  | error (err : OsError)
  | errorsClosed
  deriving DecidableEq, Repr

/-- The goroutine of `main` (main.go lines 57 to 81), run over what its
`select` receives, each item with the world as it is when the item is handled.
The loop returns when a channel is closed; when the list ends the goroutine
is blocked in `select`. -/
def drainLoop (intSize : Nat) (cfg : Config) : List (Recv × World) → List Call
  | [] => []
  | (.event event, world) :: rest => handleEvent intSize cfg world event ++ drainLoop intSize cfg rest
  | (.eventsClosed, _) :: _ => []
  | (.error err, _) :: rest => Call.log (.watcherError err) :: drainLoop intSize cfg rest
  | (.errorsClosed, _) :: _ => []

/-- What the outside world answers during start-up. -/
structure Host where
  /-- `os.Getenv` -/
  Getenv : GoString → GoString
  /-- `unix.SignalNum`: 0 for a name that is no signal -/
  SignalNum : GoString → Signal
  /-- the error of `fsnotify.NewWatcher`: `none` is a nil error -/
  NewWatcher : Option OsError
  /-- the error of `watcher.Add dir`, given the directories added so far -/
  Add : List GoString → GoString → Option OsError
  /-- `strconv.IntSize` -/
  intSize : Nat

/-- The `for` loop over `configDirs` (main.go lines 84 to 89): the error that
makes `main` call `log.Fatal`, if any, and the calls of `watcher.Add`. -/
def addLoop (host : Host) : List GoString → List GoString → Option OsError × List Call
  | _, [] => (none, [])
  | added, dir :: rest =>
    match host.Add added dir with
    | some err => (some err, [.Add dir])
    | none =>
      let r := addLoop host (added ++ [dir]) rest
      (r.1, .Add dir :: r.2)

/-- How start-up ends: the process has exited, or `main` waits on `done`
while the goroutine drains the watcher. -/
inductive Outcome where
  | exited (code : Nat)
  | running (cfg : Config)
  deriving DecidableEq, Repr

/-- Go `log.Fatal`: the line, then `os.Exit(1)`. -/
def logFatal (line : LogLine) : Outcome × List Call := (.exited 1, [.log line, .Exit 1])

/-- Go `main` up to `<-done` (main.go lines 16 to 91), the goroutine apart. -/
def main (host : Host) : Outcome × List Call :=
  let configDir := host.Getenv "CONFIG_DIR".toList
  if configDir = [] then logFatal .configDirEmpty
  else
    let processName := host.Getenv "PROCESS_NAME".toList
    let processPIDFile := host.Getenv "PROCESS_PID_FILE".toList
    if processName ≠ [] ∧ processPIDFile ≠ [] then logFatal .mutuallyExclusive
    else if processName = [] ∧ processPIDFile = [] then logFatal .targetMissing
    else
      let verbose := decide (host.Getenv "VERBOSE".toList = "true".toList)
      let reloadSignalStr := host.Getenv "RELOAD_SIGNAL".toList
      let sig : Signal × List Call :=
        if reloadSignalStr = [] then (SIGHUP, [.log .defaultingToSIGHUP])
        else (host.SignalNum reloadSignalStr, [])
      let reloadSignal := sig.1
      if reloadSignalStr ≠ [] ∧ reloadSignal = 0 then
        logFatal (.unknownSignal reloadSignalStr)
      else
        let pre := sig.2 ++
          [Call.log (.starting configDir processName processPIDFile reloadSignal), .NewWatcher]
        match host.NewWatcher with
        | some err => (.exited 1, pre ++ (logFatal (.fatalError err)).2)
        | none =>
          let r := addLoop host [] (Split configDir ',')
          match r.1 with
          | some err => (.exited 1, pre ++ r.2 ++ (logFatal (.fatalError err)).2)
          | none => (.running ⟨processName, processPIDFile, reloadSignal, verbose⟩, pre ++ r.2)

/-- The whole program: start-up, then the goroutine over what it receives.
Events are placed after registration; the interleaving of the goroutine with
the later calls of `watcher.Add` is not modelled. -/
def run (host : Host) (received : List (Recv × World)) : List Call :=
  let r := main host
  match r.1 with
  | .exited _ => r.2
  | .running cfg => r.2 ++ drainLoop host.intSize cfg received

/-! ## The words of the specification, and what is observed of a run -/

/-- The value of a sequence of decimal digits read after the value `acc`. -/
def valueFrom (acc : Nat) (ds : GoString) : Nat :=
  ds.foldl (fun n c => 10 * n + (c.toNat - 48)) acc

/-- A base-10 literal without sign: one or more ASCII decimal digits. -/
def unsignedLiteral? (ds : GoString) : Option Nat :=
  if ds ≠ [] ∧ ds.all Char.isDigit then some (valueFrom 0 ds) else none

/-- A base-10 integer literal, an optional sign `+` or `-` and one or more
ASCII decimal digits, and the integer it denotes. -/
def integerLiteral? : GoString → Option Int
  | [] => none
  | c :: rest =>
    if c = '+' then (unsignedLiteral? rest).map (fun (v : Nat) => (v : Int))
    else if c = '-' then (unsignedLiteral? rest).map (fun (v : Nat) => -(v : Int))
    else (unsignedLiteral? (c :: rest)).map (fun (v : Nat) => (v : Int))

/-- The integers a `w`-bit Go `int` holds. -/
def fits (w : Nat) (n : Int) : Prop :=
  -((2 ^ (w - 1) : Nat) : Int) ≤ n ∧ n < ((2 ^ (w - 1) : Nat) : Int)

instance (w : Nat) (n : Int) : Decidable (fits w n) := by unfold fits; infer_instance

/-- The content with its surrounding white space trimmed. -/
def trimmed (c : GoString) : GoString :=
  ((c.dropWhile IsSpace).reverse.dropWhile IsSpace).reverse

/-- The operation set holds the kind `flag`. -/
def Has (op flag : Op) : Prop := op &&& flag ≠ 0

instance (op flag : Op) : Decidable (Has op flag) := by unfold Has; infer_instance

/-- The signals sent, in order: the arguments of each call of `syscall.Kill`. -/
def kills : List Call → List (Int × Signal)
  | [] => []
  | .Kill pid signal :: rest => (pid, signal) :: kills rest
  | _ :: rest => kills rest

/-- The number of process resolutions begun (`os.ReadFile` of the PID file or
`ps.Processes`); `reloadProcess` begins exactly one on every call. -/
def attempts : List Call → Nat
  | [] => 0
  | .ReadFile _ :: rest => attempts rest + 1
  | .Processes :: rest => attempts rest + 1
  | _ :: rest => attempts rest

/-- The `error:` lines logged for failed reloads, in order. -/
def errorLines : List Call → List Error
  | [] => []
  | .log (.reloadError err) :: rest => err :: errorLines rest
  | _ :: rest => errorLines rest

/-- The directories submitted to `watcher.Add`, in order. -/
def adds : List Call → List GoString
  | [] => []
  | .Add dir :: rest => dir :: adds rest
  | _ :: rest => adds rest

/-- A finite stream of change events delivered on `watcher.Events`, each with
the world as it is when the event is handled. -/
def delivered (events : List (Event × World)) : List (Recv × World) :=
  events.map (fun x => (Recv.event x.1, x.2))

/-- A world for the examples: one PID file, a process table, every signal delivered. -/
def exampleWorld (pidFile content : GoString) (processes : List Process) : World :=
  { ReadFile := fun path =>
      if path = pidFile then .ok content else .error "no such file or directory"
    Processes := .ok processes
    Kill := fun _ _ => none }

/-- Process resolution fails: the PID file is unreadable, empty once trimmed,
or no integer that fits an `int`; or, by name, the listing fails or no
process has the name. -/
def resolutionFails (intSize : Nat) (world : World) (processName pidFile : GoString) : Prop :=
  if pidFile ≠ [] then
    (∃ err, world.ReadFile pidFile = .error err) ∨
    (∃ c, world.ReadFile pidFile = .ok c ∧
      (trimmed c = [] ∨ ¬ ∃ n, integerLiteral? (trimmed c) = some n ∧ fits intSize n))
  else
    (∃ err, world.Processes = .error err) ∨
    (∃ processes, world.Processes = .ok processes ∧
      ∀ p ∈ processes, p.Executable ≠ processName)

/-- The environment passes start-up validation: `CONFIG_DIR` is not empty,
exactly one of `PROCESS_NAME` and `PROCESS_PID_FILE` is not empty, and
`RELOAD_SIGNAL` is empty or names a signal. -/
def validEnv (host : Host) : Prop :=
  host.Getenv "CONFIG_DIR".toList ≠ [] ∧
  ((host.Getenv "PROCESS_NAME".toList ≠ [] ∧ host.Getenv "PROCESS_PID_FILE".toList = []) ∨
    (host.Getenv "PROCESS_NAME".toList = [] ∧ host.Getenv "PROCESS_PID_FILE".toList ≠ [])) ∧
  (host.Getenv "RELOAD_SIGNAL".toList = [] ∨
    host.SignalNum (host.Getenv "RELOAD_SIGNAL".toList) ≠ 0)

instance (host : Host) : Decidable (validEnv host) := by unfold validEnv; infer_instance

/-- The fields of `CONFIG_DIR`, the `configDirs` of `main`. -/
def configDirs (host : Host) : List GoString := Split (host.Getenv "CONFIG_DIR".toList) ','

/-- The signal a valid environment configures. -/
def configuredSignal (host : Host) : Signal :=
  if host.Getenv "RELOAD_SIGNAL".toList = [] then SIGHUP
  else host.SignalNum (host.Getenv "RELOAD_SIGNAL".toList)

/-- What the goroutine captures under a valid environment. -/
def configOf (host : Host) : Config :=
  { processName := host.Getenv "PROCESS_NAME".toList
    processPIDFile := host.Getenv "PROCESS_PID_FILE".toList
    reloadSignal := configuredSignal host
    verbose := decide (host.Getenv "VERBOSE".toList = "true".toList) }

/-- The calls of `main` under a valid environment up to and including
`fsnotify.NewWatcher`. -/
def startupCalls (host : Host) : List Call :=
  (if host.Getenv "RELOAD_SIGNAL".toList = [] then [Call.log .defaultingToSIGHUP] else []) ++
  [Call.log (.starting (host.Getenv "CONFIG_DIR".toList) (host.Getenv "PROCESS_NAME".toList)
      (host.Getenv "PROCESS_PID_FILE".toList) (configuredSignal host)),
    Call.NewWatcher]

/-- A host for the examples: the given environment, the Linux numbers of
`SIGHUP` and `SIGUSR1`, every directory registers. -/
def exampleHost (env : List (GoString × GoString)) (newWatcher : Option OsError) : Host :=
  { Getenv := fun key => (env.lookup key).getD []
    SignalNum := fun name =>
      if name = "SIGHUP".toList then 1 else if name = "SIGUSR1".toList then 10 else 0
    NewWatcher := newWatcher
    Add := fun _ _ => none
    intSize := 64 }

/-- The environment of the end-to-end example with a PID file. -/
def pidFileEnv : List (GoString × GoString) :=
  [("CONFIG_DIR".toList, "/tmp/cfg".toList), ("PROCESS_PID_FILE".toList, "/tmp/app.pid".toList)]

/-- The receive reports a closed channel, on which the goroutine returns. -/
def Recv.closed : Recv → Bool
  | .eventsClosed => true
  | .errorsClosed => true
  | _ => false

/-- What the goroutine receives before a channel is closed. -/
def served (received : List (Recv × World)) : List (Recv × World) :=
  received.takeWhile (fun r => !r.1.closed)

/-- The change events among what is received, each with its world, in order. -/
def eventsOf : List (Recv × World) → List (Event × World)
  | [] => []
  | (.event event, world) :: rest => (event, world) :: eventsOf rest
  | _ :: rest => eventsOf rest

/-- The calls of the goroutine for one receive: the handling of a change
event, or the one log line of a value of `watcher.Errors`. -/
def handleRecv (intSize : Nat) (cfg : Config) : Recv × World → List Call
  | (.event event, world) => handleEvent intSize cfg world event
  | (.error err, _) => [Call.log (.watcherError err)]
  | _ => []

/-- The environment of the end-to-end example with `RELOAD_SIGNAL=SIGUSR1`. -/
def usr1Env : List (GoString × GoString) :=
  [("CONFIG_DIR".toList, "/tmp/cfg".toList), ("PROCESS_PID_FILE".toList, "/tmp/app.pid".toList),
    ("RELOAD_SIGNAL".toList, "SIGUSR1".toList)]

/-! ## Lemmas and the properties of the program -/

theorem wrapInt_of_fits {w : Nat} (hw : 0 < w) {x : Int} (h : fits w x) : wrapInt w x = x := by
  unfold wrapInt
  unfold fits at h
  have h2 : ((2 ^ w : Nat) : Int) = 2 * ((2 ^ (w - 1) : Nat) : Int) := by
    obtain ⟨k, rfl⟩ : ∃ k, w = k + 1 := ⟨w - 1, by omega⟩
    simp [pow_succ]; ring
  rw [h2]
  rw [Int.emod_eq_of_lt] <;> omega

theorem isDigit_iff (c : Char) : c.isDigit = true ↔ 48 ≤ c.toNat ∧ c.toNat ≤ 57 := by
  simp [Char.isDigit, Char.toNat, UInt32.le_def, ge_iff_le, BitVec.le_def]
  rfl

theorem digit?_of_isDigit {c : Char} (h : c.isDigit = true) :
    digit? c = some (c.toNat - 48) ∧ c.toNat - 48 ≤ 9 := by
  have h1 := (isDigit_iff c).1 h
  unfold digit?
  rw [if_pos h1]
  exact ⟨rfl, by omega⟩

theorem digit?_of_not_isDigit {c : Char} (h : ¬ c.isDigit = true) : digit? c = none := by
  unfold digit?
  rw [if_neg]
  exact fun h1 => h ((isDigit_iff c).2 h1)

theorem valueFrom_cons (acc : Nat) (c : Char) (ds : GoString) :
    valueFrom acc (c :: ds) = valueFrom (10 * acc + (c.toNat - 48)) ds := rfl

theorem le_valueFrom (ds : GoString) : ∀ acc : Nat, acc ≤ valueFrom acc ds := by
  induction ds with
  | nil => intro acc; exact le_refl _
  | cons c ds ih =>
    intro acc
    rw [valueFrom_cons]
    have := ih (10 * acc + (c.toNat - 48))
    omega

theorem valueFrom_lt (ds : GoString) (hd : ∀ c ∈ ds, c.isDigit = true) :
    ∀ acc : Nat, valueFrom acc ds < (acc + 1) * 10 ^ ds.length := by
  induction ds with
  | nil => intro acc; simp [valueFrom]
  | cons c ds ih =>
    intro acc
    rw [valueFrom_cons]
    have hc := (digit?_of_isDigit (hd c (List.mem_cons_self _ _))).2
    have h1 := ih (fun x hx => hd x (List.mem_cons_of_mem _ hx)) (10 * acc + (c.toNat - 48))
    have h2 : (10 * acc + (c.toNat - 48) + 1) * 10 ^ ds.length ≤ (acc + 1) * 10 ^ (c :: ds).length := by
      have h3 : (acc + 1) * 10 ^ (c :: ds).length = ((acc + 1) * 10) * 10 ^ ds.length := by
        rw [List.length_cons, pow_succ]; ring
      rw [h3]
      apply Nat.mul_le_mul_right
      omega
    omega

/-- The fast loop of `Atoi` on digits: no wrap-around while the value fits. -/
theorem atoiFast_digits {w : Nat} (hw : 0 < w) (ds : GoString)
    (hd : ∀ c ∈ ds, c.isDigit = true) :
    ∀ acc : Nat, valueFrom acc ds < 2 ^ (w - 1) →
      atoiFast w ds (acc : Int) = some ((valueFrom acc ds : Nat) : Int) := by
  induction ds with
  | nil => intro acc _; rfl
  | cons c ds ih =>
    intro acc hlt
    rw [valueFrom_cons] at hlt ⊢
    have hc := digit?_of_isDigit (hd c (List.mem_cons_self _ _))
    have hle := le_valueFrom ds (10 * acc + (c.toNat - 48))
    have hfit : fits w ((acc : Int) * 10 + ((c.toNat - 48 : Nat) : Int)) := by
      unfold fits
      constructor
      · have : (0 : Int) ≤ ((2 ^ (w - 1) : Nat) : Int) := Int.ofNat_nonneg _
        omega
      · have : ((10 * acc + (c.toNat - 48) : Nat) : Int) < ((2 ^ (w - 1) : Nat) : Int) := by
          exact_mod_cast lt_of_le_of_lt hle hlt
        push_cast at this ⊢
        omega
    simp only [atoiFast, hc.1]
    rw [wrapInt_of_fits hw hfit]
    have := ih (fun x hx => hd x (List.mem_cons_of_mem _ hx)) (10 * acc + (c.toNat - 48)) hlt
    rw [← this]
    congr 1
    push_cast
    ring

/-- The fast loop of `Atoi` stops with a syntax error at a byte that is no digit. -/
theorem atoiFast_not_digits {w : Nat} (ds : GoString) (hd : ¬ ∀ c ∈ ds, c.isDigit = true) :
    ∀ n : Int, atoiFast w ds n = none := by
  induction ds with
  | nil => exact absurd (fun c hc => absurd hc (List.not_mem_nil c)) hd
  | cons c ds ih =>
    intro n
    by_cases hc : c.isDigit = true
    · simp only [atoiFast, (digit?_of_isDigit hc).1]
      apply ih
      intro hall
      apply hd
      intro x hx
      rcases List.mem_cons.1 hx with rfl | hx
      · exact hc
      · exact hall x hx
    · simp only [atoiFast, digit?_of_not_isDigit hc]

theorem maxUint64_eq : maxUint64 = 18446744073709551615 := by
  unfold maxUint64; norm_num

/-- The loop of `ParseUint` on digits: the value, or a range error once the
value passes `maxVal`. -/
theorem parseUintLoop_digits (maxVal : Nat) (hmax : maxVal ≤ maxUint64) (ds : GoString)
    (hd : ∀ c ∈ ds, c.isDigit = true) :
    ∀ n : Nat, n ≤ maxVal →
      parseUintLoop maxVal ds n =
        if valueFrom n ds ≤ maxVal then (valueFrom n ds, none) else (maxVal, some .ErrRange) := by
  rw [maxUint64_eq] at hmax
  induction ds with
  | nil => intro n hn; simp [parseUintLoop, valueFrom, hn]
  | cons c ds ih =>
    intro n hn
    have hc := digit?_of_isDigit (hd c (List.mem_cons_self _ _))
    have hle := le_valueFrom ds (10 * n + (c.toNat - 48))
    have ih1 := ih (fun x hx => hd x (List.mem_cons_of_mem _ hx))
    rw [valueFrom_cons]
    simp only [parseUintLoop, hc.1, maxUint64_eq]
    norm_num only
    by_cases h1 : 1844674407370955162 ≤ n
    · rw [if_pos h1, if_neg (by omega)]
    · rw [if_neg h1]
      have e10 : n * 10 % 18446744073709551616 = n * 10 := Nat.mod_eq_of_lt (by omega)
      rw [e10]
      by_cases h2 : n * 10 + (c.toNat - 48) < 18446744073709551616
      · have e1 : (n * 10 + (c.toNat - 48)) % 18446744073709551616 = n * 10 + (c.toNat - 48) :=
          Nat.mod_eq_of_lt h2
        rw [e1]
        by_cases h3 : n * 10 + (c.toNat - 48) ≤ maxVal
        · rw [if_neg (by omega), ih1 _ h3, Nat.mul_comm n 10]
        · rw [if_pos (by omega), if_neg (by omega)]
      · rw [if_pos (by omega), if_neg (by omega)]

/-- A range error of the loop of `ParseUint` comes with the value `maxVal`. -/
theorem parseUintLoop_range (maxVal : Nat) (ds : GoString) :
    ∀ n : Nat, (parseUintLoop maxVal ds n).2 = some .ErrRange →
      (parseUintLoop maxVal ds n).1 = maxVal := by
  induction ds with
  | nil => intro n h; simp [parseUintLoop] at h
  | cons c ds ih =>
    intro n
    simp only [parseUintLoop]
    cases digit? c with
    | none => intro h; simp at h
    | some d =>
      dsimp only
      split
      · intro _; rfl
      · split
        · intro _; rfl
        · exact ih _

/-- The loop of `ParseUint` fails when a byte is no digit. -/
theorem parseUintLoop_not_digits (maxVal : Nat) (ds : GoString)
    (hd : ¬ ∀ c ∈ ds, c.isDigit = true) :
    ∀ n : Nat, (parseUintLoop maxVal ds n).2 ≠ none := by
  induction ds with
  | nil => exact absurd (fun c hc => absurd hc (List.not_mem_nil c)) hd
  | cons c ds ih =>
    intro n
    by_cases hc : c.isDigit = true
    · have hrest : ¬ ∀ x ∈ ds, x.isDigit = true := by
        intro hall
        apply hd
        intro x hx
        rcases List.mem_cons.1 hx with rfl | hx
        · exact hc
        · exact hall x hx
      simp only [parseUintLoop, (digit?_of_isDigit hc).1]
      split
      · simp
      · split
        · simp
        · exact ih hrest _
    · simp [parseUintLoop, digit?_of_not_isDigit hc]

theorem unsignedLiteral?_eq_some {ds : GoString} {v : Nat} (h : unsignedLiteral? ds = some v) :
    ds ≠ [] ∧ (∀ c ∈ ds, c.isDigit = true) ∧ v = valueFrom 0 ds := by
  unfold unsignedLiteral? at h
  split at h
  · rename_i hc
    refine ⟨hc.1, ?_, ?_⟩
    · simpa using hc.2
    · simpa using h.symm
  · simp at h

theorem unsignedLiteral?_eq_none {ds : GoString} (h : unsignedLiteral? ds = none) :
    ds = [] ∨ ¬ ∀ c ∈ ds, c.isDigit = true := by
  unfold unsignedLiteral? at h
  split at h
  · simp at h
  · rename_i hc
    by_cases he : ds = []
    · exact Or.inl he
    · right
      intro hall
      exact hc ⟨he, by simpa using hall⟩

/-- The three results of `ParseUint`, told apart by the literal. -/
theorem ParseUint_of_literal {w : Nat} (hw : w ≤ 64) {ds : GoString} {v : Nat}
    (h : unsignedLiteral? ds = some v) :
    ParseUint w ds = if v ≤ 2 ^ w - 1 then (v, none) else (2 ^ w - 1, some .ErrRange) := by
  obtain ⟨hne, hd, rfl⟩ := unsignedLiteral?_eq_some h
  unfold ParseUint
  rw [if_neg hne]
  apply parseUintLoop_digits _ _ _ hd 0 (Nat.zero_le _)
  unfold maxUint64
  exact Nat.sub_le_sub_right (Nat.pow_le_pow_right (by decide) hw) 1

theorem ParseUint_of_not_literal {w : Nat} {ds : GoString} (h : unsignedLiteral? ds = none) :
    (ParseUint w ds).2 ≠ none := by
  unfold ParseUint
  rcases unsignedLiteral?_eq_none h with he | hd
  · simp [he]
  · split
    · simp
    · exact parseUintLoop_not_digits _ _ hd 0

theorem ParseUint_range {w : Nat} {ds : GoString} (h : (ParseUint w ds).2 = some .ErrRange) :
    (ParseUint w ds).1 = 2 ^ w - 1 := by
  unfold ParseUint at h ⊢
  split
  · rename_i he; simp [he] at h
  · rename_i he
    rw [if_neg he] at h
    exact parseUintLoop_range _ _ 0 h

theorem integerLiteral?_cons (c : Char) (rest : GoString) :
    integerLiteral? (c :: rest) =
      (unsignedLiteral? (if c = '+' ∨ c = '-' then rest else c :: rest)).map
        (fun (v : Nat) => if c = '-' then -(v : Int) else (v : Int)) := by
  unfold integerLiteral?
  by_cases h1 : c = '+'
  · subst h1; simp
  · by_cases h2 : c = '-'
    · subst h2; simp
    · simp [h1, h2]

theorem wrapInt64_neg (un : Nat) (h : un ≤ 2 ^ 63) :
    wrapInt 64 (-(wrapInt 64 (un : Int))) = -(un : Int) := by
  unfold wrapInt
  norm_num at h ⊢
  omega

theorem wrapInt64_pos (un : Nat) (h : un < 2 ^ 63) : wrapInt 64 (un : Int) = (un : Int) := by
  unfold wrapInt
  norm_num at h ⊢
  omega

/-- `ParseInt` returns the integer a literal denotes when it fits, and an
error in every other case. -/
theorem ParseInt_char {w : Nat} (hw : w = 32 ∨ w = 64) (s : GoString) :
    (∃ n, integerLiteral? s = some n ∧ fits w n ∧ ParseInt w s = (n, none)) ∨
    ((¬ ∃ n, integerLiteral? s = some n ∧ fits w n) ∧ (ParseInt w s).2 ≠ none) := by
  cases s with
  | nil => right; simp [integerLiteral?, ParseInt]
  | cons c rest =>
    rw [integerLiteral?_cons]
    have hw64 : w ≤ 64 := by omega
    have hcut : 2 ^ (w - 1) ≤ 2 ^ 63 := Nat.pow_le_pow_right (by decide) (by omega)
    have hcut2 : 2 ^ (w - 1) < 2 ^ w - 1 := by rcases hw with rfl | rfl <;> norm_num
    simp only [ParseInt]
    generalize (if c = '+' ∨ c = '-' then rest else c :: rest) = body
    cases hu : unsignedLiteral? body with
    | none =>
      right
      refine ⟨by simp, ?_⟩
      have h1 : (ParseUint w body).2 ≠ none := ParseUint_of_not_literal hu
      by_cases hs : (ParseUint w body).2 = some .ErrSyntax
      · simp [hs]
      · have hr : (ParseUint w body).2 = some .ErrRange := by
          cases h : (ParseUint w body).2 with
          | none => exact absurd h h1
          | some e => cases e with
            | ErrSyntax => exact absurd h hs
            | ErrRange => rfl
        have hv := ParseUint_range hr
        rw [if_neg hs, hv]
        by_cases hneg : c = '-'
        · simp [hneg]
          rw [if_pos (by omega)]
          simp
        · simp [hneg]
          rw [if_pos (by omega)]
          simp
    | some v =>
      have h1 := ParseUint_of_literal hw64 hu
      by_cases hv : v ≤ 2 ^ w - 1
      · rw [if_pos hv] at h1
        rw [h1]
        simp only [Option.map_some']
        by_cases hneg : c = '-'
        · simp only [hneg, if_true, decide_True]
          by_cases hc : v > 2 ^ (w - 1)
          · right
            constructor
            · rintro ⟨n, hn, hfit⟩
              simp at hn
              subst hn
              unfold fits at hfit
              omega
            · simp [hc]
          · left
            refine ⟨-(v : Int), rfl, ?_, ?_⟩
            · unfold fits
              have : (0 : Int) < ((2 ^ (w - 1) : Nat) : Int) := by
                exact_mod_cast Nat.pos_pow_of_pos _ (by decide)
              have : (v : Int) ≤ ((2 ^ (w - 1) : Nat) : Int) := by exact_mod_cast (not_lt.1 hc)
              omega
            · simp [hc]
              exact wrapInt64_neg v (by omega)
        · simp only [hneg, if_false, decide_False]
          by_cases hc : v ≥ 2 ^ (w - 1)
          · right
            constructor
            · rintro ⟨n, hn, hfit⟩
              simp at hn
              subst hn
              unfold fits at hfit
              have : ((2 ^ (w - 1) : Nat) : Int) ≤ (v : Int) := by exact_mod_cast hc
              omega
            · simp [hc]
          · left
            refine ⟨(v : Int), rfl, ?_, ?_⟩
            · unfold fits
              have : (v : Int) < ((2 ^ (w - 1) : Nat) : Int) := by exact_mod_cast (not_le.1 hc)
              omega
            · simp [hc]
              exact wrapInt64_pos v (by omega)
      · rw [if_neg hv] at h1
        right
        constructor
        · rintro ⟨n, hn, hfit⟩
          rw [Option.map_some', Option.some.injEq] at hn
          unfold fits at hfit
          have h2 : ((2 ^ (w - 1) : Nat) : Int) < (v : Int) := by exact_mod_cast (by omega : 2 ^ (w - 1) < v)
          split at hn <;> omega
        · rw [h1]
          by_cases hneg : c = '-'
          · simp [hneg]
            rw [if_pos (by omega)]
            simp
          · simp [hneg]
            rw [if_pos (by omega)]
            simp

theorem length_le_len (s : GoString) : s.length ≤ len s := by
  unfold len
  induction s with
  | nil => simp
  | cons c s ih =>
    have := Char.utf8Size_pos c
    simp only [List.length_cons, List.map_cons, List.sum_cons]
    omega

/-- On the fast path of `Atoi` the digits are too few to leave the range of `int`. -/
theorem valueFrom_lt_of_short {w : Nat} {ds : GoString} (hd : ∀ c ∈ ds, c.isDigit = true)
    (h : (w = 32 ∧ ds.length < 10) ∨ (w = 64 ∧ ds.length < 19)) :
    valueFrom 0 ds < 2 ^ (w - 1) := by
  have h1 := valueFrom_lt ds hd 0
  rw [Nat.zero_add, Nat.one_mul] at h1
  rcases h with ⟨rfl, hl⟩ | ⟨rfl, hl⟩
  · have h2 : 10 ^ ds.length ≤ 10 ^ 9 := Nat.pow_le_pow_right (by decide) (by omega)
    norm_num at h2 ⊢
    omega
  · have h2 : 10 ^ ds.length ≤ 10 ^ 18 := Nat.pow_le_pow_right (by decide) (by omega)
    norm_num at h2 ⊢
    omega

theorem atoiFast_of_literal {w : Nat} {ds : GoString} {v : Nat}
    (h : (w = 32 ∧ ds.length < 10) ∨ (w = 64 ∧ ds.length < 19))
    (hu : unsignedLiteral? ds = some v) :
    atoiFast w ds 0 = some (v : Int) ∧ v < 2 ^ (w - 1) := by
  obtain ⟨_, hd, rfl⟩ := unsignedLiteral?_eq_some hu
  have hlt := valueFrom_lt_of_short hd h
  have hw : 0 < w := by omega
  exact ⟨by simpa using atoiFast_digits hw ds hd 0 hlt, hlt⟩

/-- `Atoi` returns the integer a literal denotes when it fits the `int`, and
an error in every other case. -/
theorem Atoi_char {w : Nat} (hw : w = 32 ∨ w = 64) (s : GoString) :
    (∃ n, integerLiteral? s = some n ∧ fits w n ∧ Atoi w s = (n, none)) ∨
    ((¬ ∃ n, integerLiteral? s = some n ∧ fits w n) ∧ (Atoi w s).2 ≠ none) := by
  have hw0 : 0 < w := by omega
  unfold Atoi
  by_cases hfast : (w = 32 ∧ 0 < len s ∧ len s < 10) ∨ (w = 64 ∧ 0 < len s ∧ len s < 19)
  · simp only [hfast, if_true]
    cases s with
    | nil => right; simp [integerLiteral?]
    | cons c rest =>
      have hlen := length_le_len (c :: rest)
      rw [List.length_cons] at hlen
      have hshort : ∀ ds : GoString, ds.length ≤ rest.length + 1 →
          (w = 32 ∧ ds.length < 10) ∨ (w = 64 ∧ ds.length < 19) := by
        intro ds hds
        rcases hfast with ⟨h1, _, h2⟩ | ⟨h1, _, h2⟩
        · exact Or.inl ⟨h1, by omega⟩
        · exact Or.inr ⟨h1, by omega⟩
      rw [integerLiteral?_cons]
      by_cases hsign : c = '+' ∨ c = '-'
      · have hsign2 : c = '-' ∨ c = '+' := hsign.symm
        simp only [hsign, hsign2, if_true, decide_True]
        cases hu : unsignedLiteral? rest with
        | none =>
          right
          refine ⟨by simp, ?_⟩
          rcases unsignedLiteral?_eq_none hu with he | hd
          · simp [he]
          · rw [atoiFast_not_digits rest hd]
            split <;> simp
        | some v =>
          left
          obtain ⟨hf, hv⟩ := atoiFast_of_literal (hshort rest (by omega)) hu
          have hne := (unsignedLiteral?_eq_some hu).1
          have hvi : (v : Int) < ((2 ^ (w - 1) : Nat) : Int) := by exact_mod_cast hv
          have hfit : fits w (if c = '-' then -(v : Int) else (v : Int)) := by
            unfold fits
            split <;> omega
          refine ⟨_, rfl, hfit, ?_⟩
          simp only [hne, and_false, if_false, hf]
          by_cases hneg : c = '-'
          · simp only [hneg, if_true] at hfit ⊢
            rw [wrapInt_of_fits hw0 hfit]
          · simp only [hneg, if_false]
      · have hsign2 : ¬ (c = '-' ∨ c = '+') := fun h => hsign h.symm
        have hneg : ¬ c = '-' := fun h => hsign (Or.inr h)
        have hplus : ¬ c = '+' := fun h => hsign (Or.inl h)
        simp only [hplus, hneg, or_self, if_false, decide_False, Bool.false_eq_true, false_and]
        cases hu : unsignedLiteral? (c :: rest) with
        | none =>
          right
          refine ⟨by simp, ?_⟩
          rcases unsignedLiteral?_eq_none hu with he | hd
          · exact absurd he (List.cons_ne_nil _ _)
          · rw [atoiFast_not_digits (c :: rest) hd]
            simp
        | some v =>
          left
          obtain ⟨hf, hv⟩ := atoiFast_of_literal (hshort (c :: rest) (by simp)) hu
          have hvi : (v : Int) < ((2 ^ (w - 1) : Nat) : Int) := by exact_mod_cast hv
          refine ⟨(v : Int), rfl, ?_, ?_⟩
          · unfold fits; omega
          · simp only [hf]
  · simp only [hfast, if_false]
    rcases ParseInt_char hw s with ⟨n, h1, h2, h3⟩ | ⟨h1, h2⟩
    · left
      refine ⟨n, h1, h2, ?_⟩
      rw [h3]
      simp only [wrapInt_of_fits hw0 h2]
    · right
      exact ⟨h1, h2⟩

/-- `Atoi` succeeds with `n` exactly on the literals that denote an `n` in range. -/
theorem Atoi_eq_iff {w : Nat} (hw : w = 32 ∨ w = 64) (s : GoString) (n : Int) :
    Atoi w s = (n, none) ↔ integerLiteral? s = some n ∧ fits w n := by
  rcases Atoi_char hw s with ⟨m, h1, h2, h3⟩ | ⟨h1, h2⟩
  · constructor
    · intro h
      rw [h3] at h
      have : m = n := by simpa using h
      subst this
      exact ⟨h1, h2⟩
    · rintro ⟨h4, _⟩
      rw [h1] at h4
      have : m = n := by simpa using h4
      subst this
      exact h3
  · constructor
    · intro h
      rw [h] at h2
      exact absurd rfl h2
    · intro h
      exact absurd ⟨n, h⟩ h1

theorem asciiSpace_eq_IsSpace {c : Char} (h : ¬ 0x80 ≤ c.toNat) : asciiSpace c = IsSpace c := by
  unfold asciiSpace IsSpace
  have h1 : c.toNat ≤ 0xFF := by omega
  simp only [h1, if_true]
  congr 1
  apply propext
  constructor
  · rintro (h | h | h | h | h | h) <;> simp [h]
  · rintro (h | h | h | h | h | h | h | h) <;> omega

theorem trimSpaceStop_eq (rev : GoString) :
    trimSpaceStop rev = (rev.dropWhile IsSpace).reverse := by
  induction rev with
  | nil => rfl
  | cons c rest ih =>
    unfold trimSpaceStop
    by_cases h : 0x80 ≤ c.toNat
    · rw [if_pos h]
      unfold TrimRightFunc
      rw [List.reverse_reverse]
    · rw [if_neg h, asciiSpace_eq_IsSpace h]
      by_cases hs : IsSpace c = true
      · rw [if_pos hs, ih, List.dropWhile_cons_of_pos hs]
      · rw [if_neg hs, List.dropWhile_cons_of_neg hs]

/-- The ASCII fast path of `TrimSpace` agrees with trimming white space at both ends. -/
theorem TrimSpace_eq_trimmed (s : GoString) : TrimSpace s = trimmed s := by
  unfold TrimSpace
  induction s with
  | nil => rfl
  | cons c rest ih =>
    unfold trimSpaceStart
    by_cases h : 0x80 ≤ c.toNat
    · rw [if_pos h]
      rfl
    · rw [if_neg h, asciiSpace_eq_IsSpace h]
      by_cases hs : IsSpace c = true
      · rw [if_pos hs, ih]
        unfold trimmed
        rw [List.dropWhile_cons_of_pos hs]
      · rw [if_neg hs, trimSpaceStop_eq]
        unfold trimmed
        rw [List.dropWhile_cons_of_neg hs]

/-- The test of the goroutine, `event.Op&fsnotify.Chmod != fsnotify.Chmod`, holds
exactly when the operation set does not hold `Chmod`. -/
theorem guard_iff (op : Op) : op &&& Chmod ≠ Chmod ↔ ¬ Has op Chmod := by
  unfold Has Chmod
  have h := Nat.and_two_pow op 4
  norm_num at h
  rw [h]
  cases Nat.testBit op 4 <;> simp

theorem head?_dropWhile_not (p : Char → Bool) (l : GoString) (x : Char)
    (h : (l.dropWhile p).head? = some x) : p x = false := by
  induction l with
  | nil => simp at h
  | cons c t ih =>
    by_cases hc : p c = true
    · rw [List.dropWhile_cons_of_pos hc] at h
      exact ih h
    · rw [List.dropWhile_cons_of_neg hc] at h
      have : c = x := by simpa using h
      subst this
      simpa using hc

/-- What `trimmed` removes is white space at both ends, and what it leaves
neither begins nor ends with white space. -/
theorem trimmed_surrounded (c : GoString) :
    ∃ l r, c = l ++ trimmed c ++ r ∧ (∀ x ∈ l, IsSpace x = true) ∧
      (∀ x ∈ r, IsSpace x = true) ∧
      (∀ x, (trimmed c).head? = some x → IsSpace x = false) ∧
      (∀ x, (trimmed c).getLast? = some x → IsSpace x = false) := by
  refine ⟨c.takeWhile IsSpace, ((c.dropWhile IsSpace).reverse.takeWhile IsSpace).reverse,
    ?_, ?_, ?_, ?_, ?_⟩
  · unfold trimmed
    rw [List.append_assoc, ← List.reverse_append, List.takeWhile_append_dropWhile,
      List.reverse_reverse, List.takeWhile_append_dropWhile]
  · intro x hx
    exact List.mem_takeWhile_imp hx
  · intro x hx
    exact List.mem_takeWhile_imp (List.mem_reverse.1 hx)
  · intro x hx
    have hpre : trimmed c <+: c.dropWhile IsSpace := by
      refine ⟨((c.dropWhile IsSpace).reverse.takeWhile IsSpace).reverse, ?_⟩
      unfold trimmed
      rw [← List.reverse_append, List.takeWhile_append_dropWhile, List.reverse_reverse]
    cases ht : trimmed c with
    | nil => rw [ht] at hx; simp at hx
    | cons y ys =>
      rw [ht] at hx hpre
      have hy : y = x := by simpa using hx
      subst hy
      obtain ⟨r, hr⟩ := hpre
      apply head?_dropWhile_not IsSpace c
      rw [← hr]
      rfl
  · intro x hx
    unfold trimmed at hx
    rw [List.getLast?_reverse] at hx
    exact head?_dropWhile_not IsSpace _ x hx

theorem kills_append (a b : List Call) : kills (a ++ b) = kills a ++ kills b := by
  induction a with
  | nil => rfl
  | cons c a ih => cases c <;> simp [kills, ih]

theorem attempts_append (a b : List Call) : attempts (a ++ b) = attempts a + attempts b := by
  induction a with
  | nil => simp [attempts]
  | cons c a ih => cases c <;> simp [attempts, ih] <;> omega

theorem errorLines_append (a b : List Call) :
    errorLines (a ++ b) = errorLines a ++ errorLines b := by
  induction a with
  | nil => rfl
  | cons c a ih =>
    cases c with
    | log line => cases line <;> simp [errorLines, ih]
    | _ => simp [errorLines, ih]

theorem adds_append (a b : List Call) : adds (a ++ b) = adds a ++ adds b := by
  induction a with
  | nil => rfl
  | cons c a ih => cases c <;> simp [adds, ih]

theorem findPIDLoop_eq (process : GoString) (processes : List Process) :
    (findPIDLoop process processes).1 =
      match processes.find? (fun p => decide (p.Executable = process)) with
      | some p => (p.Pid, none)
      | none => (-1, some (.noMatch process)) := by
  induction processes with
  | nil => rfl
  | cons p rest ih =>
    unfold findPIDLoop
    by_cases h : p.Executable = process
    · simp [h]
    · simp [h, ih]

theorem findPIDLoop_calls (process : GoString) (processes : List Process) :
    (findPIDLoop process processes).2 = [] ∨
      ∃ executable pid, (findPIDLoop process processes).2 =
        [.log (.foundExecutable executable pid)] := by
  induction processes with
  | nil => exact Or.inl rfl
  | cons p rest ih =>
    unfold findPIDLoop
    by_cases h : p.Executable = process
    · right; exact ⟨p.Executable, p.Pid, by simp [h]⟩
    · simpa [h] using ih

theorem findPID_calls (world : World) (process : GoString) :
    (findPID world process).2 = [.Processes] ∨
      ∃ executable pid, (findPID world process).2 =
        [.Processes, .log (.foundExecutable executable pid)] := by
  unfold findPID
  cases world.Processes with
  | error err => exact Or.inl rfl
  | ok processes =>
    rcases findPIDLoop_calls process processes with h | ⟨e, p, h⟩
    · left; simp [h]
    · right; exact ⟨e, p, by simp [h]⟩

theorem pidFromFile_calls (intSize : Nat) (world : World) (path : GoString) :
    (pidFromFile intSize world path).2 = [.ReadFile path] := by
  unfold pidFromFile
  cases world.ReadFile path with
  | error err => rfl
  | ok content =>
    dsimp only
    split
    · rfl
    · split <;> rfl

theorem pidFromFile_read_error {intSize : Nat} {world : World} {path : GoString} {err : OsError}
    (h : world.ReadFile path = .error err) :
    (pidFromFile intSize world path).1 = (-1, some (.readFailed path err)) := by
  unfold pidFromFile
  rw [h]

theorem pidFromFile_empty {intSize : Nat} {world : World} {path c : GoString}
    (h : world.ReadFile path = .ok c) (he : trimmed c = []) :
    (pidFromFile intSize world path).1 = (-1, some (.emptyPidFile path)) := by
  unfold pidFromFile
  rw [h]
  simp [TrimSpace_eq_trimmed, he]

theorem integerLiteral?_ne_nil {s : GoString} {n : Int} (h : integerLiteral? s = some n) :
    s ≠ [] := by
  rintro rfl
  simp [integerLiteral?] at h

theorem pidFromFile_ok {intSize : Nat} (hw : intSize = 32 ∨ intSize = 64) {world : World}
    {path c : GoString} {n : Int} (h : world.ReadFile path = .ok c)
    (hl : integerLiteral? (trimmed c) = some n) (hf : fits intSize n) :
    (pidFromFile intSize world path).1 = (n, none) := by
  unfold pidFromFile
  rw [h]
  have h1 := (Atoi_eq_iff hw (trimmed c) n).2 ⟨hl, hf⟩
  simp [TrimSpace_eq_trimmed, integerLiteral?_ne_nil hl, h1]

theorem pidFromFile_not_integer {intSize : Nat} (hw : intSize = 32 ∨ intSize = 64)
    {world : World} {path c : GoString} (h : world.ReadFile path = .ok c)
    (hne : trimmed c ≠ [])
    (hl : ¬ ∃ n, integerLiteral? (trimmed c) = some n ∧ fits intSize n) :
    ∃ err, (pidFromFile intSize world path).1 = (-1, some (.notInteger path err)) := by
  unfold pidFromFile
  rw [h]
  rcases Atoi_char hw (trimmed c) with ⟨n, h1, h2, _⟩ | ⟨_, h2⟩
  · exact absurd ⟨n, h1, h2⟩ hl
  · cases hA : Atoi intSize (trimmed c) with
    | mk v e =>
      rw [hA] at h2
      cases e with
      | none => exact absurd rfl h2
      | some err => exact ⟨err, by simp [TrimSpace_eq_trimmed, hne, hA]⟩

/-- Every result of `pidFromFile`, by what the file holds. -/
theorem pidFromFile_cases {intSize : Nat} (hw : intSize = 32 ∨ intSize = 64) (world : World)
    (path : GoString) :
    (∃ err, world.ReadFile path = .error err ∧
      (pidFromFile intSize world path).1 = (-1, some (.readFailed path err))) ∨
    (∃ c, world.ReadFile path = .ok c ∧ trimmed c = [] ∧
      (pidFromFile intSize world path).1 = (-1, some (.emptyPidFile path))) ∨
    (∃ c err, world.ReadFile path = .ok c ∧ trimmed c ≠ [] ∧
      (¬ ∃ n, integerLiteral? (trimmed c) = some n ∧ fits intSize n) ∧
      (pidFromFile intSize world path).1 = (-1, some (.notInteger path err))) ∨
    (∃ c n, world.ReadFile path = .ok c ∧ integerLiteral? (trimmed c) = some n ∧
      fits intSize n ∧ (pidFromFile intSize world path).1 = (n, none)) := by
  cases h : world.ReadFile path with
  | error err => exact Or.inl ⟨err, rfl, pidFromFile_read_error h⟩
  | ok c =>
    right
    by_cases he : trimmed c = []
    · exact Or.inl ⟨c, rfl, he, pidFromFile_empty h he⟩
    · right
      by_cases hl : ∃ n, integerLiteral? (trimmed c) = some n ∧ fits intSize n
      · obtain ⟨n, h1, h2⟩ := hl
        exact Or.inr ⟨c, n, rfl, h1, h2, pidFromFile_ok hw h h1 h2⟩
      · obtain ⟨err, h3⟩ := pidFromFile_not_integer hw h he hl
        exact Or.inl ⟨c, err, rfl, he, hl, h3⟩

theorem getPID_calls (intSize : Nat) (world : World) (processName pidFile : GoString) :
    attempts (getPID intSize world processName pidFile).2 = 1 ∧
    kills (getPID intSize world processName pidFile).2 = [] ∧
    errorLines (getPID intSize world processName pidFile).2 = [] := by
  unfold getPID
  split
  · rw [pidFromFile_calls]
    exact ⟨rfl, rfl, rfl⟩
  · rcases findPID_calls world processName with h | ⟨e, p, h⟩ <;> rw [h] <;> exact ⟨rfl, rfl, rfl⟩

/-- When resolution fails `reloadProcess` returns the error of `getPID` and
has made the calls of `getPID` only. -/
theorem reloadProcess_of_error {intSize : Nat} {world : World} {process pidFile : GoString}
    {signal : Signal} {err : Error}
    (h : (getPID intSize world process pidFile).1.2 = some err) :
    reloadProcess intSize world process pidFile signal =
      (some err, (getPID intSize world process pidFile).2) := by
  unfold reloadProcess
  simp only [h]

/-- When resolution succeeds `reloadProcess` calls `syscall.Kill` once, with
the resolved PID and the signal it was given. -/
theorem reloadProcess_of_pid {intSize : Nat} {world : World} {process pidFile : GoString}
    {signal : Signal} {pid : Int}
    (h : (getPID intSize world process pidFile).1 = (pid, none)) :
    reloadProcess intSize world process pidFile signal =
      match world.Kill pid signal with
      | some err =>
        (some (.killFailed err), (getPID intSize world process pidFile).2 ++ [.Kill pid signal])
      | none =>
        (none, (getPID intSize world process pidFile).2 ++
          [.Kill pid signal,
           .log (if pidFile ≠ [] then .signalSentFromFile signal pid pidFile
                 else .signalSentToProcess signal process pid)]) := by
  unfold reloadProcess
  simp only [h]
  cases world.Kill pid signal with
  | some err => rfl
  | none =>
    dsimp only
    split <;> rfl

theorem reloadProcess_attempts (intSize : Nat) (world : World) (process pidFile : GoString)
    (signal : Signal) :
    attempts (reloadProcess intSize world process pidFile signal).2 = 1 := by
  have hc := (getPID_calls intSize world process pidFile).1
  cases hr : (getPID intSize world process pidFile).1 with
  | mk pid e =>
    cases e with
    | some err =>
      rw [reloadProcess_of_error (by rw [hr])]
      exact hc
    | none =>
      rw [reloadProcess_of_pid hr]
      cases world.Kill pid signal <;> simp [attempts_append, hc, attempts]

theorem reloadProcess_errorLines (intSize : Nat) (world : World) (process pidFile : GoString)
    (signal : Signal) :
    errorLines (reloadProcess intSize world process pidFile signal).2 = [] := by
  have hc := (getPID_calls intSize world process pidFile).2.2
  cases hr : (getPID intSize world process pidFile).1 with
  | mk pid e =>
    cases e with
    | some err =>
      rw [reloadProcess_of_error (by rw [hr])]
      exact hc
    | none =>
      rw [reloadProcess_of_pid hr]
      cases world.Kill pid signal
      · simp only [errorLines_append, hc]
        split <;> rfl
      · simp [errorLines_append, hc, errorLines]

/-- The calls of the goroutine for an event that passes its test. -/
theorem handleEvent_of_not_chmod {intSize : Nat} {cfg : Config} {world : World} {event : Event}
    (h : ¬ Has event.Op Chmod) :
    handleEvent intSize cfg world event =
      (if cfg.verbose then [Call.log (.event event)] else []) ++
      ([Call.log (.modifiedFile event.Name)] ++
        (reloadProcess intSize world cfg.processName cfg.processPIDFile cfg.reloadSignal).2 ++
        (match (reloadProcess intSize world cfg.processName cfg.processPIDFile
            cfg.reloadSignal).1 with
         | some err => [Call.log (.reloadError err)]
         | none => [])) := by
  unfold handleEvent
  rw [if_pos ((guard_iff event.Op).2 h)]

/-- The calls of the goroutine for an event that fails its test. -/
theorem handleEvent_of_chmod {intSize : Nat} {cfg : Config} {world : World} {event : Event}
    (h : Has event.Op Chmod) :
    handleEvent intSize cfg world event =
      (if cfg.verbose then [Call.log (.event event)] else []) := by
  unfold handleEvent
  rw [if_neg (fun hg => (guard_iff event.Op).1 hg h), List.append_nil]

theorem verboseLine_observed (cfg : Config) (event : Event) :
    attempts (if cfg.verbose then [Call.log (.event event)] else []) = 0 ∧
    kills (if cfg.verbose then [Call.log (.event event)] else []) = [] ∧
    errorLines (if cfg.verbose then [Call.log (.event event)] else []) = [] := by
  cases cfg.verbose <;> exact ⟨rfl, rfl, rfl⟩

theorem handleEvent_attempts (intSize : Nat) (cfg : Config) (world : World) (event : Event) :
    attempts (handleEvent intSize cfg world event) = if Has event.Op Chmod then 0 else 1 := by
  by_cases h : Has event.Op Chmod
  · rw [handleEvent_of_chmod h, if_pos h]
    exact (verboseLine_observed cfg event).1
  · rw [handleEvent_of_not_chmod h, if_neg h]
    simp only [attempts_append, (verboseLine_observed cfg event).1, reloadProcess_attempts]
    cases (reloadProcess intSize world cfg.processName cfg.processPIDFile cfg.reloadSignal).1 <;>
      simp [attempts]

theorem drainLoop_delivered (intSize : Nat) (cfg : Config) (events : List (Event × World)) :
    drainLoop intSize cfg (delivered events) =
      events.flatMap (fun x => handleEvent intSize cfg x.2 x.1) := by
  induction events with
  | nil => rfl
  | cons x rest ih =>
    unfold delivered at ih ⊢
    simp only [List.map_cons, drainLoop, List.flatMap_cons, ih]

theorem findPID_result (world : World) (process : GoString) :
    (∃ err, world.Processes = .error err ∧
      (findPID world process).1 = (-1, some (.listFailed err))) ∨
    (∃ processes, world.Processes = .ok processes ∧
      (findPID world process).1 =
        match processes.find? (fun p => decide (p.Executable = process)) with
        | some p => (p.Pid, none)
        | none => (-1, some (.noMatch process))) := by
  unfold findPID
  cases world.Processes with
  | error err => exact Or.inl ⟨err, rfl, rfl⟩
  | ok processes => exact Or.inr ⟨processes, rfl, findPIDLoop_eq process processes⟩

theorem find?_none_iff (process : GoString) (processes : List Process) :
    processes.find? (fun p => decide (p.Executable = process)) = none ↔
      ∀ p ∈ processes, p.Executable ≠ process := by
  simp [List.find?_eq_none]

/-- Resolution fails, in the words of the specification, exactly when `getPID`
returns an error. -/
theorem getPID_error_iff {intSize : Nat} (hw : intSize = 32 ∨ intSize = 64) (world : World)
    (processName pidFile : GoString) :
    resolutionFails intSize world processName pidFile ↔
      ∃ err, (getPID intSize world processName pidFile).1.2 = some err := by
  unfold resolutionFails getPID
  by_cases hp : pidFile ≠ []
  · rw [if_pos hp, if_pos hp]
    rcases pidFromFile_cases hw world pidFile with ⟨e, h1, h2⟩ | ⟨c, h1, h2, h3⟩ |
      ⟨c, e, h1, h2, h3, h4⟩ | ⟨c, n, h1, h2, h3, h4⟩
    · rw [h2]; exact ⟨fun _ => ⟨_, rfl⟩, fun _ => Or.inl ⟨e, h1⟩⟩
    · rw [h3]; exact ⟨fun _ => ⟨_, rfl⟩, fun _ => Or.inr ⟨c, h1, Or.inl h2⟩⟩
    · rw [h4]; exact ⟨fun _ => ⟨_, rfl⟩, fun _ => Or.inr ⟨c, h1, Or.inr h3⟩⟩
    · rw [h4]
      constructor
      · rintro (⟨e, he⟩ | ⟨c2, hc2, hbad⟩)
        · rw [h1] at he; cases he
        · rw [h1] at hc2
          cases hc2
          rcases hbad with hbad | hbad
          · exact absurd hbad (integerLiteral?_ne_nil h2)
          · exact absurd ⟨n, h2, h3⟩ hbad
      · rintro ⟨e, he⟩
        cases he
  · rw [if_neg hp, if_neg hp]
    rcases findPID_result world processName with ⟨e, h1, h2⟩ | ⟨ps, h1, h2⟩
    · rw [h2]; exact ⟨fun _ => ⟨_, rfl⟩, fun _ => Or.inl ⟨e, h1⟩⟩
    · rw [h2]
      cases hf : ps.find? (fun p => decide (p.Executable = processName)) with
      | none =>
        exact ⟨fun _ => ⟨_, rfl⟩, fun _ => Or.inr ⟨ps, h1, (find?_none_iff _ _).1 hf⟩⟩
      | some p =>
        constructor
        · rintro (⟨e, he⟩ | ⟨ps2, hps2, hno⟩)
          · rw [h1] at he; cases he
          · rw [h1] at hps2
            cases hps2
            rw [(find?_none_iff _ _).2 hno] at hf
            cases hf
        · rintro ⟨e, he⟩
          cases he

theorem handleEvent_of_error {intSize : Nat} {cfg : Config} {world : World} {event : Event}
    {err : Error} (hq : ¬ Has event.Op Chmod)
    (h : (getPID intSize world cfg.processName cfg.processPIDFile).1.2 = some err) :
    errorLines (handleEvent intSize cfg world event) = [err] ∧
    kills (handleEvent intSize cfg world event) = [] := by
  have hc := getPID_calls intSize world cfg.processName cfg.processPIDFile
  rw [handleEvent_of_not_chmod hq, reloadProcess_of_error h]
  simp only [errorLines_append, kills_append, (verboseLine_observed cfg event).2.1,
    (verboseLine_observed cfg event).2.2, hc.2.1, hc.2.2]
  exact ⟨rfl, rfl⟩

theorem handleEvent_of_pid {intSize : Nat} {cfg : Config} {world : World} {event : Event}
    {pid : Int} (hq : ¬ Has event.Op Chmod)
    (h : (getPID intSize world cfg.processName cfg.processPIDFile).1 = (pid, none)) :
    kills (handleEvent intSize cfg world event) = [(pid, cfg.reloadSignal)] ∧
    (world.Kill pid cfg.reloadSignal = none →
      Call.log (if cfg.processPIDFile ≠ [] then
          .signalSentFromFile cfg.reloadSignal pid cfg.processPIDFile
        else .signalSentToProcess cfg.reloadSignal cfg.processName pid) ∈
        handleEvent intSize cfg world event) := by
  have hc := getPID_calls intSize world cfg.processName cfg.processPIDFile
  rw [handleEvent_of_not_chmod hq, reloadProcess_of_pid h]
  cases hk : world.Kill pid cfg.reloadSignal with
  | some err =>
    simp only [kills_append, (verboseLine_observed cfg event).2.1, hc.2.1]
    exact ⟨rfl, fun h => by cases h⟩
  | none =>
    simp only [kills_append, (verboseLine_observed cfg event).2.1, hc.2.1]
    refine ⟨rfl, fun _ => ?_⟩
    apply List.mem_append_right
    apply List.mem_append_left
    apply List.mem_append_right
    apply List.mem_append_right
    exact List.mem_cons_of_mem _ (List.mem_singleton.2 rfl)

theorem getPID_of_pidFile {intSize : Nat} (hw : intSize = 32 ∨ intSize = 64) {world : World}
    {processName pidFile c : GoString} {n : Int} (hp : pidFile ≠ [])
    (h : world.ReadFile pidFile = .ok c) (hl : integerLiteral? (trimmed c) = some n)
    (hf : fits intSize n) :
    (getPID intSize world processName pidFile).1 = (n, none) := by
  unfold getPID
  rw [if_pos hp]
  exact pidFromFile_ok hw h hl hf

theorem main_of_valid {host : Host} (h : validEnv host) :
    main host =
      match host.NewWatcher with
      | some err => (.exited 1, startupCalls host ++ [.log (.fatalError err), .Exit 1])
      | none =>
        match (addLoop host [] (configDirs host)).1 with
        | some err =>
          (.exited 1, startupCalls host ++
            (addLoop host [] (configDirs host)).2 ++
            [.log (.fatalError err), .Exit 1])
        | none =>
          (.running (configOf host), startupCalls host ++
            (addLoop host [] (configDirs host)).2) := by
  unfold validEnv at h
  unfold main startupCalls configOf configuredSignal logFatal configDirs
  generalize host.Getenv "CONFIG_DIR".toList = cd at h ⊢
  generalize host.Getenv "PROCESS_NAME".toList = pn at h ⊢
  generalize host.Getenv "PROCESS_PID_FILE".toList = pf at h ⊢
  generalize host.Getenv "RELOAD_SIGNAL".toList = rs at h ⊢
  generalize host.Getenv "VERBOSE".toList = vb
  obtain ⟨h1, h2, h3⟩ := h
  have h4 : ¬ (pn ≠ [] ∧ pf ≠ []) := by
    rcases h2 with ⟨_, hb⟩ | ⟨ha, _⟩
    · exact fun hx => hx.2 hb
    · exact fun hx => hx.1 ha
  have h5 : ¬ (pn = [] ∧ pf = []) := by
    rcases h2 with ⟨ha, _⟩ | ⟨_, hb⟩
    · exact fun hx => ha hx.1
    · exact fun hx => hb hx.2
  simp only [if_neg h1, if_neg h4, if_neg h5]
  by_cases hr : rs = []
  · subst hr
    simp [SIGHUP]
  · have h6 : host.SignalNum rs ≠ 0 := by
      rcases h3 with h3 | h3
      · exact absurd h3 hr
      · exact h3
    simp [hr, h6]

theorem main_of_invalid {host : Host} (h : ¬ validEnv host) :
    ∃ line, main host = (.exited 1, [.log line, .Exit 1]) := by
  unfold validEnv at h
  unfold main logFatal
  generalize host.Getenv "CONFIG_DIR".toList = cd at h ⊢
  generalize host.Getenv "PROCESS_NAME".toList = pn at h ⊢
  generalize host.Getenv "PROCESS_PID_FILE".toList = pf at h ⊢
  generalize host.Getenv "RELOAD_SIGNAL".toList = rs at h ⊢
  generalize host.Getenv "VERBOSE".toList = vb
  by_cases h1 : cd = []
  · exact ⟨.configDirEmpty, by rw [if_pos h1]⟩
  · by_cases h4 : pn ≠ [] ∧ pf ≠ []
    · exact ⟨.mutuallyExclusive, by rw [if_neg h1, if_pos h4]⟩
    · by_cases h5 : pn = [] ∧ pf = []
      · exact ⟨.targetMissing, by rw [if_neg h1, if_neg h4, if_pos h5]⟩
      · have h2 : (pn ≠ [] ∧ pf = []) ∨ (pn = [] ∧ pf ≠ []) := by
          by_cases ha : pn = []
          · exact Or.inr ⟨ha, fun hb => h5 ⟨ha, hb⟩⟩
          · exact Or.inl ⟨ha, by_contra fun hb => h4 ⟨ha, hb⟩⟩
        by_cases hr : rs = []
        · exact absurd ⟨h1, h2, Or.inl hr⟩ h
        · by_cases h6 : host.SignalNum rs = 0
          · refine ⟨.unknownSignal rs, ?_⟩
            rw [if_neg h1, if_neg h4, if_neg h5]
            simp [hr, h6]
          · exact absurd ⟨h1, h2, Or.inr h6⟩ h

/-- What `main` has done when it reaches `<-done`. -/
theorem main_running {host : Host} {cfg : Config} (hrun : (main host).1 = .running cfg) :
    validEnv host ∧ host.NewWatcher = none ∧
    (addLoop host [] (configDirs host)).1 = none ∧
    cfg = configOf host ∧
    (main host).2 = startupCalls host ++
      (addLoop host [] (configDirs host)).2 := by
  have hvalid : validEnv host := by
    by_contra hinv
    obtain ⟨line, hline⟩ := main_of_invalid hinv
    rw [hline] at hrun
    cases hrun
  have hmain := main_of_valid hvalid
  rw [hmain] at hrun ⊢
  cases hnw : host.NewWatcher with
  | some err => simp [hnw] at hrun
  | none =>
    cases hadd : (addLoop host [] (configDirs host)).1 with
    | some err => simp [hnw, hadd] at hrun
    | none =>
      simp only [hnw, hadd] at hrun
      have hc : configOf host = cfg := by simpa using hrun
      exact ⟨hvalid, rfl, rfl, hc.symm, rfl⟩

theorem run_of_running {host : Host} {cfg : Config} (hrun : (main host).1 = .running cfg)
    (received : List (Recv × World)) :
    run host received = (main host).2 ++ drainLoop host.intSize cfg received := by
  unfold run
  simp only [hrun]

theorem run_of_exited {host : Host} {code : Nat} (hrun : (main host).1 = .exited code)
    (received : List (Recv × World)) : run host received = (main host).2 := by
  unfold run
  simp only [hrun]

theorem startupCalls_observed (host : Host) :
    kills (startupCalls host) = [] ∧ adds (startupCalls host) = [] ∧
    Call.NewWatcher ∈ startupCalls host := by
  unfold startupCalls
  split <;> exact ⟨rfl, rfl, by simp⟩

theorem kills_map_Add (dirs : List GoString) : kills (dirs.map Call.Add) = [] := by
  induction dirs with
  | nil => rfl
  | cons d rest ih => simpa [kills] using ih

theorem genSplit_ne_nil (sep : Char) (n : Nat) (s : GoString) : genSplit sep n s ≠ [] := by
  cases n with
  | zero => simp [genSplit]
  | succ n =>
    unfold genSplit
    split <;> simp

theorem cut_at_first (sep : Char) (s : GoString) (h : sep ∈ s) :
    ∃ rest, s.dropWhile (fun c => decide (c ≠ sep)) = sep :: rest ∧
      s = s.takeWhile (fun c => decide (c ≠ sep)) ++ sep :: rest ∧
      sep ∉ s.takeWhile (fun c => decide (c ≠ sep)) := by
  induction s with
  | nil => exact absurd h (List.not_mem_nil _)
  | cons c t ih =>
    by_cases hc : c = sep
    · subst hc
      exact ⟨t, by simp, by simp, by simp⟩
    · have ht : sep ∈ t := by
        rcases List.mem_cons.1 h with h | h
        · exact absurd h.symm hc
        · exact h
      obtain ⟨rest, h1, h2, h3⟩ := ih ht
      refine ⟨rest, ?_, ?_, ?_⟩
      · rw [List.dropWhile_cons_of_pos (by simpa using hc)]
        exact h1
      · have : List.takeWhile (fun c => decide (c ≠ sep)) (c :: t) =
            c :: List.takeWhile (fun c => decide (c ≠ sep)) t := by simp [hc]
        rw [this, List.cons_append, ← h2]
      · have : List.takeWhile (fun c => decide (c ≠ sep)) (c :: t) =
            c :: List.takeWhile (fun c => decide (c ≠ sep)) t := by simp [hc]
        rw [this]
        intro hm
        rcases List.mem_cons.1 hm with hm | hm
        · exact hc hm.symm
        · exact h3 hm

/-- With enough cuts `genSplit` returns the fields between the separators:
joined by the separator they give the string back, and none holds a separator. -/
theorem genSplit_fields (sep : Char) : ∀ (n : Nat) (s : GoString), s.count sep ≤ n →
    [sep].intercalate (genSplit sep n s) = s ∧ ∀ f ∈ genSplit sep n s, sep ∉ f := by
  intro n
  induction n with
  | zero =>
    intro s hs
    have h0 : s.count sep = 0 := Nat.le_zero.1 hs
    have hnot : sep ∉ s := List.count_eq_zero.1 h0
    simp [genSplit, List.intercalate, hnot]
  | succ n ih =>
    intro s hs
    unfold genSplit
    by_cases hm : sep ∈ s
    · rw [if_pos hm]
      obtain ⟨rest, h1, h2, h3⟩ := cut_at_first sep s hm
      have hcount : rest.count sep ≤ n := by
        have hc : s.count sep = rest.count sep + 1 := by
          conv_lhs => rw [h2]
          rw [List.count_append, List.count_eq_zero.2 h3, List.count_cons_self, Nat.zero_add]
        omega
      rw [h1]
      simp only [List.drop_succ_cons, List.drop_zero]
      obtain ⟨i1, i2⟩ := ih rest hcount
      constructor
      · cases hg : genSplit sep n rest with
        | nil => exact absurd hg (genSplit_ne_nil sep n rest)
        | cons f fs =>
          rw [hg] at i1
          conv_rhs => rw [h2, ← i1]
          simp [List.intercalate]
      · intro f hf
        rcases List.mem_cons.1 hf with hf | hf
        · rw [hf]; exact h3
        · exact i2 f hf
    · rw [if_neg hm]
      simp [List.intercalate, hm]

/-- The fields `strings.Split` returns for a one-byte separator. -/
theorem Split_fields (s : GoString) (sep : Char) :
    Split s sep ≠ [] ∧ [sep].intercalate (Split s sep) = s ∧ ∀ f ∈ Split s sep, sep ∉ f :=
  ⟨genSplit_ne_nil sep _ s, genSplit_fields sep _ s (le_refl _)⟩

theorem adds_map_Add (dirs : List GoString) : adds (dirs.map Call.Add) = dirs := by
  induction dirs with
  | nil => rfl
  | cons d rest ih => simp [adds, ih]

theorem addLoop_calls (host : Host) (todo : List GoString) : ∀ added : List GoString,
    ∃ k, (addLoop host added todo).2 = (todo.take k).map Call.Add := by
  induction todo with
  | nil => intro added; exact ⟨0, rfl⟩
  | cons d rest ih =>
    intro added
    unfold addLoop
    cases host.Add added d with
    | some err => exact ⟨1, by simp⟩
    | none =>
      obtain ⟨k, hk⟩ := ih (added ++ [d])
      exact ⟨k + 1, by simp [hk]⟩

/-- Every directory registers: the loop submits them all, in order. -/
theorem addLoop_all (host : Host) (todo : List GoString) : ∀ added : List GoString,
    (∀ i dir, todo[i]? = some dir → host.Add (added ++ todo.take i) dir = none) →
      addLoop host added todo = (none, todo.map Call.Add) := by
  induction todo with
  | nil => intro added _; rfl
  | cons d rest ih =>
    intro added h
    unfold addLoop
    have h0 := h 0 d (by simp)
    simp only [List.take_zero, List.append_nil] at h0
    rw [h0]
    have := ih (added ++ [d]) (fun i dir hi => by
      have := h (i + 1) dir (by simpa using hi)
      simpa using this)
    simp [this]

/-- The first directory that fails ends the loop: no later one is submitted. -/
theorem addLoop_first_failure (host : Host) (todo : List GoString) :
    ∀ (added : List GoString) (i : Nat) (dir : GoString) (err : OsError),
      todo[i]? = some dir →
      (∀ j d, j < i → todo[j]? = some d → host.Add (added ++ todo.take j) d = none) →
      host.Add (added ++ todo.take i) dir = some err →
      addLoop host added todo = (some err, (todo.take (i + 1)).map Call.Add) := by
  induction todo with
  | nil => intro added i dir err h; simp at h
  | cons d rest ih =>
    intro added i dir err hi hpre hfail
    unfold addLoop
    cases i with
    | zero =>
      have hd : d = dir := by simpa using hi
      subst hd
      simp only [List.take_zero, List.append_nil] at hfail
      rw [hfail]
      simp
    | succ i =>
      have h0 := hpre 0 d (Nat.succ_pos i) (by simp)
      simp only [List.take_zero, List.append_nil] at h0
      rw [h0]
      have := ih (added ++ [d]) i dir err (by simpa using hi)
        (fun j x hj hx => by
          have := hpre (j + 1) x (by omega) (by simpa using hx)
          simpa using this)
        (by simpa using hfail)
      simp [this]

/-- The loop ends without error only if every directory registered. -/
theorem addLoop_none (host : Host) (todo : List GoString) : ∀ added : List GoString,
    (addLoop host added todo).1 = none →
      ∀ i dir, todo[i]? = some dir → host.Add (added ++ todo.take i) dir = none := by
  induction todo with
  | nil => intro added _ i dir h; simp at h
  | cons d rest ih =>
    intro added h i dir hi
    unfold addLoop at h
    cases hd : host.Add added d with
    | some err => rw [hd] at h; simp at h
    | none =>
      rw [hd] at h
      cases i with
      | zero =>
        have : d = dir := by simpa using hi
        subst this
        simpa using hd
      | succ i =>
        have := ih (added ++ [d]) h i dir (by simpa using hi)
        simpa using this

theorem attempts_flatMap (intSize : Nat) (cfg : Config) (events : List (Event × World)) :
    attempts (events.flatMap (fun x => handleEvent intSize cfg x.2 x.1)) =
      events.countP (fun x => decide (¬ Has x.1.Op Chmod)) := by
  induction events with
  | nil => rfl
  | cons x rest ih =>
    rw [List.flatMap_cons, attempts_append, ih, handleEvent_attempts, List.countP_cons]
    by_cases h : Has x.1.Op Chmod
    · simp [h]
    · simp [h]; omega

theorem drainLoop_served (intSize : Nat) (cfg : Config) (received : List (Recv × World)) :
    drainLoop intSize cfg received = (served received).flatMap (handleRecv intSize cfg) := by
  unfold served
  induction received with
  | nil => rfl
  | cons r rest ih =>
    obtain ⟨recv, world⟩ := r
    cases recv with
    | event event =>
      simp only [drainLoop, List.takeWhile, Recv.closed, Bool.not_false, List.flatMap_cons,
        handleRecv, ih]
    | eventsClosed => rfl
    | error err =>
      simp only [drainLoop, List.takeWhile, Recv.closed, Bool.not_false, List.flatMap_cons,
        handleRecv, ih, List.singleton_append]
    | errorsClosed => rfl

theorem attempts_handleRecv (intSize : Nat) (cfg : Config) (received : List (Recv × World)) :
    attempts (received.flatMap (handleRecv intSize cfg)) =
      (eventsOf received).countP (fun x => decide (¬ Has x.1.Op Chmod)) := by
  induction received with
  | nil => rfl
  | cons r rest ih =>
    obtain ⟨recv, world⟩ := r
    rw [List.flatMap_cons, attempts_append, ih]
    cases recv with
    | event event =>
      simp only [handleRecv, eventsOf, List.countP_cons, handleEvent_attempts]
      by_cases h : Has event.Op Chmod
      · simp [h]
      · simp [h]; omega
    | eventsClosed => simp [handleRecv, eventsOf, attempts]
    | error err => simp [handleRecv, eventsOf, attempts]
    | errorsClosed => simp [handleRecv, eventsOf, attempts]

theorem served_of_open (received : List (Recv × World))
    (h : ∀ r ∈ received, r.1.closed = false) : served received = received := by
  unfold served
  rw [List.takeWhile_eq_self_iff]
  intro r hr
  simp [h r hr]

theorem served_delivered (events : List (Event × World)) :
    served (delivered events) = delivered events ∧ eventsOf (delivered events) = events := by
  constructor
  · apply served_of_open
    intro r hr
    unfold delivered at hr
    obtain ⟨x, _, rfl⟩ := List.mem_map.1 hr
    rfl
  · unfold delivered
    induction events with
    | nil => rfl
    | cons x rest ih => simp only [List.map_cons, eventsOf, ih]

/-- C1: in every run of the goroutine, whatever it receives on its two
channels and whatever each reload attempt results in, its calls are those of
each receive in turn, up to the first closed channel: a value of
`watcher.Errors` is logged and the loop goes on, and a change event is handled
with exactly one call of `reloadProcess` when its operation set does not hold
`Chmod` and none when its operation set is exactly `Chmod`.  So the number of
attempts is the number of received events without `Chmod`, and over a finite
stream of delivered events every event is handled, in stream order. -/
theorem drain_attempts_once_per_event (intSize : Nat) (cfg : Config)
    (received : List (Recv × World)) (events : List (Event × World)) :
    drainLoop intSize cfg received = (served received).flatMap (handleRecv intSize cfg) ∧
    attempts (drainLoop intSize cfg received) =
      (eventsOf (served received)).countP (fun x => decide (¬ Has x.1.Op Chmod)) ∧
    ((∀ r ∈ received, r.1.closed = false) →
      drainLoop intSize cfg received = received.flatMap (handleRecv intSize cfg) ∧
      attempts (drainLoop intSize cfg received) =
        (eventsOf received).countP (fun x => decide (¬ Has x.1.Op Chmod))) ∧
    (∀ (world : World) (event : Event), ¬ Has event.Op Chmod →
      attempts (handleEvent intSize cfg world event) = 1 ∧
      ∃ before after, attempts before = 0 ∧ attempts after = 0 ∧
        handleEvent intSize cfg world event = before ++
          (reloadProcess intSize world cfg.processName cfg.processPIDFile
            cfg.reloadSignal).2 ++ after) ∧
    (∀ (world : World) (event : Event), event.Op = Chmod →
      attempts (handleEvent intSize cfg world event) = 0) ∧
    (∀ (world : World) (err : OsError),
      handleRecv intSize cfg (.error err, world) = [Call.log (.watcherError err)]) ∧
    drainLoop intSize cfg (delivered events) =
      events.flatMap (fun x => handleEvent intSize cfg x.2 x.1) ∧
    attempts (drainLoop intSize cfg (delivered events)) =
      events.countP (fun x => decide (¬ Has x.1.Op Chmod)) := by
  refine ⟨drainLoop_served intSize cfg received, ?_, ?_, ?_, ?_, ?_,
    drainLoop_delivered intSize cfg events, ?_⟩
  · rw [drainLoop_served, attempts_handleRecv]
  · intro hopen
    have hs := served_of_open received hopen
    constructor
    · rw [drainLoop_served, hs]
    · rw [drainLoop_served, attempts_handleRecv, hs]
  · intro world event hq
    refine ⟨by rw [handleEvent_attempts, if_neg hq], ?_⟩
    refine ⟨(if cfg.verbose then [Call.log (.event event)] else []) ++
        [Call.log (.modifiedFile event.Name)],
      (match (reloadProcess intSize world cfg.processName cfg.processPIDFile
          cfg.reloadSignal).1 with
       | some err => [Call.log (.reloadError err)]
       | none => []), ?_, ?_, ?_⟩
    · rw [attempts_append, (verboseLine_observed cfg event).1]; rfl
    · cases (reloadProcess intSize world cfg.processName cfg.processPIDFile
          cfg.reloadSignal).1 <;> rfl
    · rw [handleEvent_of_not_chmod hq]
      simp only [List.append_assoc]
  · intro world event hx
    have hc : Has event.Op Chmod := by rw [hx]; decide
    rw [handleEvent_attempts, if_pos hc]
  · intro world err
    rfl
  · rw [drainLoop_delivered, attempts_flatMap]

/-- C2: for an `int` value `n`, `pidFromFile` returns `n` with no error exactly
when the file is readable and its content, surrounding white space trimmed, is
a base-10 integer literal denoting `n`; it never returns a value outside `int`;
it returns an error (and -1) when the file is unreadable, when the trimmed
content is empty, and when the trimmed content is no base-10 integer literal. -/
theorem pidFromFile_integer_literal (intSize : Nat) (hw : intSize = 32 ∨ intSize = 64)
    (world : World) (path : GoString) :
    (∀ n : Int, fits intSize n →
      ((pidFromFile intSize world path).1 = (n, none) ↔
        ∃ c, world.ReadFile path = .ok c ∧ integerLiteral? (trimmed c) = some n)) ∧
    (∀ n : Int, (pidFromFile intSize world path).1 = (n, none) → fits intSize n) ∧
    (∀ err, world.ReadFile path = .error err →
      (pidFromFile intSize world path).1 = (-1, some (.readFailed path err))) ∧
    (∀ c, world.ReadFile path = .ok c → trimmed c = [] →
      (pidFromFile intSize world path).1 = (-1, some (.emptyPidFile path))) ∧
    (∀ c, world.ReadFile path = .ok c → trimmed c ≠ [] →
      integerLiteral? (trimmed c) = none →
      ∃ err, (pidFromFile intSize world path).1 = (-1, some (.notInteger path err))) ∧
    (world.ReadFile path = .ok "  42\n".toList →
      (pidFromFile intSize world path).1 = (42, none)) ∧
    (∀ c ∈ ["abc".toList, "12 34".toList, "0x10".toList], world.ReadFile path = .ok c →
      ∃ err, (pidFromFile intSize world path).1 = (-1, some (.notInteger path err))) := by
  have key : ∀ n : Int, (pidFromFile intSize world path).1 = (n, none) →
      ∃ c, world.ReadFile path = .ok c ∧ integerLiteral? (trimmed c) = some n ∧
        fits intSize n := by
    intro n hn
    rcases pidFromFile_cases hw world path with ⟨e, _, h2⟩ | ⟨c, _, _, h3⟩ |
      ⟨c, e, _, _, _, h4⟩ | ⟨c, m, h1, h2, h3, h4⟩
    · rw [h2] at hn; cases hn
    · rw [h3] at hn; cases hn
    · rw [h4] at hn; cases hn
    · rw [h4] at hn
      cases hn
      exact ⟨c, h1, h2, h3⟩
  refine ⟨?_, ?_, ?_, ?_, ?_, ?_, ?_⟩
  · intro n hfit
    constructor
    · intro hn
      obtain ⟨c, h1, h2, _⟩ := key n hn
      exact ⟨c, h1, h2⟩
    · rintro ⟨c, h1, h2⟩
      exact pidFromFile_ok hw h1 h2 hfit
  · intro n hn
    obtain ⟨_, _, _, h3⟩ := key n hn
    exact h3
  · intro err h
    exact pidFromFile_read_error h
  · intro c h he
    exact pidFromFile_empty h he
  · intro c h hne hl
    exact pidFromFile_not_integer hw h hne (by rintro ⟨n, hn, _⟩; rw [hl] at hn; cases hn)
  · intro h
    apply pidFromFile_ok hw h (by decide)
    rcases hw with rfl | rfl <;> decide
  · intro c hc h
    have h2 : trimmed c ≠ [] ∧ integerLiteral? (trimmed c) = none := by
      simp only [List.mem_cons, List.mem_singleton, List.not_mem_nil, or_false] at hc
      rcases hc with rfl | rfl | rfl <;> decide
    exact pidFromFile_not_integer hw h h2.1
      (by rintro ⟨n, hn, _⟩; rw [h2.2] at hn; cases hn)

/-- The example of C2: the content `"  42\n"` resolves to 42 on a 64-bit platform. -/
theorem pidFromFile_integer_literal_witness :
    (pidFromFile 64 (exampleWorld "/run/app.pid".toList "  42\n".toList []) "/run/app.pid".toList).1
      = (42, none) :=
  (pidFromFile_integer_literal 64 (Or.inr rfl)
    (exampleWorld "/run/app.pid".toList "  42\n".toList []) "/run/app.pid".toList).2.2.2.2.2.1
    rfl

/-- C4: over every process snapshot and target name, `findPID` returns the PID
of the first entry whose executable name equals the target; it returns an
error exactly when the listing fails or no entry has the name, and then the
value -1; the entries after the first match do not affect the result. -/
theorem findPID_first_match (world : World) (process : GoString) :
    (∀ processes, world.Processes = .ok processes →
      (findPID world process).1 =
        match processes.find? (fun p => decide (p.Executable = process)) with
        | some p => (p.Pid, none)
        | none => (-1, some (.noMatch process))) ∧
    (∀ err, world.Processes = .error err →
      (findPID world process).1 = (-1, some (.listFailed err))) ∧
    ((findPID world process).1.2 ≠ none ↔
      (∃ err, world.Processes = .error err) ∨
      (∃ processes, world.Processes = .ok processes ∧
        ∀ p ∈ processes, p.Executable ≠ process)) ∧
    ((findPID world process).1.2 ≠ none → (findPID world process).1.1 = -1) ∧
    (∀ before p after, world.Processes = .ok (before ++ p :: after) →
      (∀ q ∈ before, q.Executable ≠ process) → p.Executable = process →
      (findPID world process).1 = (p.Pid, none)) := by
  have hres := findPID_result world process
  refine ⟨?_, ?_, ?_, ?_, ?_⟩
  · intro processes h
    rcases hres with ⟨e, h1, _⟩ | ⟨ps, h1, h2⟩
    · rw [h] at h1; cases h1
    · rw [h] at h1; cases h1; exact h2
  · intro err h
    rcases hres with ⟨e, h1, h2⟩ | ⟨ps, h1, _⟩
    · rw [h] at h1; cases h1; exact h2
    · rw [h] at h1; cases h1
  · rcases hres with ⟨e, h1, h2⟩ | ⟨ps, h1, h2⟩
    · rw [h2]
      exact ⟨fun _ => Or.inl ⟨e, h1⟩, fun _ => by simp⟩
    · rw [h2]
      cases hf : ps.find? (fun p => decide (p.Executable = process)) with
      | none =>
        exact ⟨fun _ => Or.inr ⟨ps, h1, (find?_none_iff _ _).1 hf⟩, fun _ => by simp⟩
      | some p =>
        constructor
        · intro hne; exact absurd rfl hne
        · rintro (⟨e, he⟩ | ⟨ps2, hps2, hno⟩)
          · rw [h1] at he; cases he
          · rw [h1] at hps2
            cases hps2
            rw [(find?_none_iff _ _).2 hno] at hf
            cases hf
  · rcases hres with ⟨e, _, h2⟩ | ⟨ps, _, h2⟩
    · rw [h2]; intro _; rfl
    · rw [h2]
      cases ps.find? (fun p => decide (p.Executable = process)) with
      | none => intro _; rfl
      | some p => intro hne; exact absurd rfl hne
  · intro before p after h hb hp
    rcases hres with ⟨e, h1, _⟩ | ⟨ps, h1, h2⟩
    · rw [h] at h1; cases h1
    · rw [h] at h1
      cases h1
      rw [h2]
      have : (before ++ p :: after).find? (fun q => decide (q.Executable = process)) = some p := by
        rw [List.find?_append, (find?_none_iff _ _).2 hb]
        simp [hp]
      rw [this]

/-- C5: when process resolution fails (by name: the listing fails or no process
has the name; by file: the PID file is unreadable, empty once trimmed, or no
integer), `reloadProcess` returns the error of the resolution without calling
`syscall.Kill`, and the handling of an event that passes the test logs exactly
one `error:` line, for that error, and sends no signal. -/
theorem failed_resolution_logged_once (intSize : Nat) (hw : intSize = 32 ∨ intSize = 64)
    (cfg : Config) (world : World) (event : Event)
    (hfail : resolutionFails intSize world cfg.processName cfg.processPIDFile)
    (hq : ¬ Has event.Op Chmod) :
    ∃ err,
      (reloadProcess intSize world cfg.processName cfg.processPIDFile cfg.reloadSignal).1
        = some err ∧
      (getPID intSize world cfg.processName cfg.processPIDFile).1.2 = some err ∧
      kills (reloadProcess intSize world cfg.processName cfg.processPIDFile
        cfg.reloadSignal).2 = [] ∧
      errorLines (handleEvent intSize cfg world event) = [err] ∧
      kills (handleEvent intSize cfg world event) = [] ∧
      (cfg.processPIDFile = [] →
        (∀ processes, world.Processes = .ok processes → err = .noMatch cfg.processName) ∧
        (∀ e, world.Processes = .error e → err = .listFailed e)) := by
  obtain ⟨err, herr⟩ := (getPID_error_iff hw world cfg.processName cfg.processPIDFile).1 hfail
  have hr := @reloadProcess_of_error _ _ _ _ cfg.reloadSignal _ herr
  have hh := handleEvent_of_error hq herr
  refine ⟨err, by rw [hr], herr, ?_, hh.1, hh.2, ?_⟩
  · rw [hr]
    exact (getPID_calls intSize world cfg.processName cfg.processPIDFile).2.1
  · intro hp
    have hg : (getPID intSize world cfg.processName cfg.processPIDFile).1 =
        (findPID world cfg.processName).1 := by
      unfold getPID
      rw [if_neg (by simp [hp])]
    rw [hg] at herr
    unfold resolutionFails at hfail
    rw [if_neg (by simp [hp])] at hfail
    constructor
    · intro processes h
      rcases findPID_result world cfg.processName with ⟨e, h1, _⟩ | ⟨ps, h1, h2⟩
      · rw [h] at h1; cases h1
      · rw [h2] at herr
        cases hf : ps.find? (fun p => decide (p.Executable = cfg.processName)) with
        | none =>
          rw [hf] at herr
          simpa using herr.symm
        | some p =>
          rw [hf] at herr
          cases herr
    · intro e h
      rcases findPID_result world cfg.processName with ⟨e2, h1, h2⟩ | ⟨ps, h1, _⟩
      · rw [h] at h1
        cases h1
        rw [h2] at herr
        simpa using herr.symm
      · rw [h] at h1; cases h1

/-- The example of C5: `PROCESS_NAME=myapp`, no process named `myapp`, a write
event: one not-found error line and no signal. -/
theorem failed_resolution_logged_once_witness :
    errorLines (handleEvent 64 ⟨"myapp".toList, [], SIGHUP, false⟩
        (exampleWorld [] [] [⟨"nginx".toList, 7⟩]) ⟨"/tmp/cfg/app.conf".toList, Write⟩)
      = [.noMatch "myapp".toList] ∧
    kills (handleEvent 64 ⟨"myapp".toList, [], SIGHUP, false⟩
        (exampleWorld [] [] [⟨"nginx".toList, 7⟩]) ⟨"/tmp/cfg/app.conf".toList, Write⟩) = [] := by
  obtain ⟨err, _, _, _, h4, h5, h6⟩ :=
    failed_resolution_logged_once 64 (Or.inr rfl) ⟨"myapp".toList, [], SIGHUP, false⟩
      (exampleWorld [] [] [⟨"nginx".toList, 7⟩]) ⟨"/tmp/cfg/app.conf".toList, Write⟩
      (by
        unfold resolutionFails
        rw [if_neg (by simp)]
        exact Or.inr ⟨[⟨"nginx".toList, 7⟩], rfl, by decide⟩)
      (by decide)
  have := (h6 rfl).1 _ rfl
  subst this
  exact ⟨h4, h5⟩

/-- C6: the signal `main` configures is `SIGHUP` when `RELOAD_SIGNAL` is unset
and the signal `unix.SignalNum` gives for its value otherwise; and for a PID
file whose content parses to `n`, an event that passes the test causes exactly
one call of `syscall.Kill`, with `n` and the configured signal, and, when the
signal is delivered, the log line naming the PID file and `n`. -/
theorem configured_signal_to_pid_file (host : Host) (cfg : Config)
    (hrun : (main host).1 = .running cfg) :
    (host.Getenv "RELOAD_SIGNAL".toList = [] → cfg.reloadSignal = SIGHUP) ∧
    (host.Getenv "RELOAD_SIGNAL".toList ≠ [] →
      cfg.reloadSignal = host.SignalNum (host.Getenv "RELOAD_SIGNAL".toList) ∧
      cfg.reloadSignal ≠ 0) ∧
    cfg.processPIDFile = host.Getenv "PROCESS_PID_FILE".toList ∧
    ∀ (world : World) (event : Event) (c : GoString) (n : Int),
      host.intSize = 32 ∨ host.intSize = 64 →
      host.Getenv "PROCESS_PID_FILE".toList ≠ [] →
      world.ReadFile (host.Getenv "PROCESS_PID_FILE".toList) = .ok c →
      integerLiteral? (trimmed c) = some n → fits host.intSize n →
      ¬ Has event.Op Chmod →
        kills (handleEvent host.intSize cfg world event) = [(n, cfg.reloadSignal)] ∧
        (world.Kill n cfg.reloadSignal = none →
          Call.log (.signalSentFromFile cfg.reloadSignal n
              (host.Getenv "PROCESS_PID_FILE".toList)) ∈
            handleEvent host.intSize cfg world event) ∧
        kills (run host [(Recv.event event, world)]) = [(n, cfg.reloadSignal)] := by
  obtain ⟨hvalid, _, _, hcfg, hcalls⟩ := main_running hrun
  have hsig : cfg.reloadSignal = configuredSignal host := by rw [hcfg]; rfl
  have hpf : cfg.processPIDFile = host.Getenv "PROCESS_PID_FILE".toList := by rw [hcfg]; rfl
  refine ⟨?_, ?_, hpf, ?_⟩
  · intro hunset
    rw [hsig]
    unfold configuredSignal
    rw [if_pos hunset]
  · intro hset
    have hnum : configuredSignal host = host.SignalNum (host.Getenv "RELOAD_SIGNAL".toList) := by
      unfold configuredSignal
      rw [if_neg hset]
    rw [hsig, hnum]
    refine ⟨rfl, ?_⟩
    rcases hvalid.2.2 with h | h
    · exact absurd h hset
    · exact h
  · intro world event c n hw hne hread hlit hfit hq
    have hg : (getPID host.intSize world cfg.processName cfg.processPIDFile).1 = (n, none) :=
      getPID_of_pidFile hw (by rw [hpf]; exact hne) (by rw [hpf]; exact hread) hlit hfit
    have hh := handleEvent_of_pid hq hg
    rw [hpf, if_pos hne] at hh
    refine ⟨hh.1, hh.2, ?_⟩
    rw [run_of_running hrun, kills_append, hcalls, kills_append,
      (startupCalls_observed host).1]
    obtain ⟨k, hk⟩ := addLoop_calls host (configDirs host) []
    rw [hk, kills_map_Add]
    simp only [drainLoop, List.append_nil, List.nil_append]
    exact hh.1

/-- The end-to-end examples of C6: `/tmp/cfg` watched, `PROCESS_PID_FILE` a
file holding `1234`; with `RELOAD_SIGNAL` unset a write sends `SIGHUP` to PID
1234, with `RELOAD_SIGNAL=SIGUSR1` it sends that signal (10). -/
theorem configured_signal_to_pid_file_witness :
    kills (run (exampleHost pidFileEnv none)
      [(Recv.event ⟨"/tmp/cfg/app.conf".toList, Write⟩,
        exampleWorld "/tmp/app.pid".toList "1234".toList [])]) = [(1234, SIGHUP)] ∧
    kills (run (exampleHost usr1Env none)
      [(Recv.event ⟨"/tmp/cfg/app.conf".toList, Write⟩,
        exampleWorld "/tmp/app.pid".toList "1234".toList [])]) = [(1234, 10)] :=
  ⟨((configured_signal_to_pid_file (exampleHost pidFileEnv none)
      ⟨[], "/tmp/app.pid".toList, 1, false⟩ (by decide)).2.2.2
      (exampleWorld "/tmp/app.pid".toList "1234".toList []) ⟨"/tmp/cfg/app.conf".toList, Write⟩
      "1234".toList 1234 (Or.inr rfl) (by decide) rfl (by decide) (by decide) (by decide)).2.2,
   ((configured_signal_to_pid_file (exampleHost usr1Env none)
      ⟨[], "/tmp/app.pid".toList, 10, false⟩ (by decide)).2.2.2
      (exampleWorld "/tmp/app.pid".toList "1234".toList []) ⟨"/tmp/cfg/app.conf".toList, Write⟩
      "1234".toList 1234 (Or.inr rfl) (by decide) rfl (by decide) (by decide) (by decide)).2.2⟩

/-- C9, as the code has it: an event triggers exactly one reload attempt when
its operation set does not hold `Chmod`, and none when it holds `Chmod`,
alone or next to other kinds such as `Write`. -/
theorem reload_iff_no_chmod (intSize : Nat) (cfg : Config) (world : World) (event : Event) :
    (attempts (handleEvent intSize cfg world event) = 1 ↔ ¬ Has event.Op Chmod) ∧
    (attempts (handleEvent intSize cfg world event) = 0 ↔ Has event.Op Chmod) ∧
    (Has event.Op Chmod → kills (handleEvent intSize cfg world event) = []) := by
  have h := handleEvent_attempts intSize cfg world event
  refine ⟨?_, ?_, ?_⟩
  · by_cases hc : Has event.Op Chmod
    · rw [h, if_pos hc]; simp [hc]
    · rw [h, if_neg hc]; simp [hc]
  · by_cases hc : Has event.Op Chmod
    · rw [h, if_pos hc]; simp [hc]
    · rw [h, if_neg hc]; simp [hc]
  · intro hc
    rw [handleEvent_of_chmod hc]
    exact (verboseLine_observed cfg event).2.1

/-- C9 fails on a write+chmod event: its operation set holds `Write`, a kind
other than permission-change, and no reload attempt is made. -/
theorem write_chmod_event_ignored :
    Has (Write ||| Chmod) Write ∧ Write ≠ Chmod ∧
    attempts (handleEvent 64 ⟨[], "/tmp/app.pid".toList, SIGHUP, false⟩
      (exampleWorld "/tmp/app.pid".toList "1234".toList [])
      ⟨"/tmp/cfg/app.conf".toList, Write ||| Chmod⟩) = 0 ∧
    handleEvent 64 ⟨[], "/tmp/app.pid".toList, SIGHUP, false⟩
      (exampleWorld "/tmp/app.pid".toList "1234".toList [])
      ⟨"/tmp/cfg/app.conf".toList, Write ||| Chmod⟩ = [] := by
  refine ⟨by decide, by decide, by decide, by decide⟩

/-- C10: `pidFromFile` applies no range check besides that of `int`: when the
trimmed content of the PID file is an optional sign and decimal digits whose
value `n` fits an `int`, zero and negative values included, `pidFromFile`
returns `n`, and `reloadProcess` calls `syscall.Kill` once, with `n`
unchanged and the signal it was given. -/
theorem pid_passed_unchanged (intSize : Nat) (hw : intSize = 32 ∨ intSize = 64) (world : World)
    (process pidFile c : GoString) (signal : Signal) (n : Int) (hp : pidFile ≠ [])
    (hread : world.ReadFile pidFile = .ok c) (hlit : integerLiteral? (trimmed c) = some n)
    (hfit : fits intSize n) :
    (pidFromFile intSize world pidFile).1 = (n, none) ∧
    kills (reloadProcess intSize world process pidFile signal).2 = [(n, signal)] ∧
    (reloadProcess intSize world process pidFile signal).2 =
      [Call.ReadFile pidFile, Call.Kill n signal] ++
        (match world.Kill n signal with
         | some _ => []
         | none => [Call.log (.signalSentFromFile signal n pidFile)]) ∧
    integerLiteral? "0".toList = some 0 ∧ integerLiteral? "-1".toList = some (-1) ∧
    integerLiteral? "+7".toList = some 7 := by
  have hg : (getPID intSize world process pidFile).1 = (n, none) :=
    getPID_of_pidFile hw hp hread hlit hfit
  have hcalls : (getPID intSize world process pidFile).2 = [Call.ReadFile pidFile] := by
    unfold getPID
    rw [if_pos hp, pidFromFile_calls]
  refine ⟨pidFromFile_ok hw hread hlit hfit, ?_, ?_, by decide, by decide, by decide⟩
  · rw [reloadProcess_of_pid hg, hcalls]
    cases world.Kill n signal <;> rfl
  · rw [reloadProcess_of_pid hg, hcalls]
    cases world.Kill n signal with
    | some err => rfl
    | none => simp [hp]

/-- An example of C10: a PID file holding `-1` makes `reloadProcess` call
`syscall.Kill(-1, signal)`. -/
theorem pid_passed_unchanged_witness :
    kills (reloadProcess 64 (exampleWorld "/tmp/app.pid".toList " -1\n".toList []) []
      "/tmp/app.pid".toList SIGHUP).2 = [(-1, SIGHUP)] :=
  (pid_passed_unchanged 64 (Or.inr rfl) (exampleWorld "/tmp/app.pid".toList " -1\n".toList [])
    [] "/tmp/app.pid".toList " -1\n".toList SIGHUP (-1) (by decide) rfl (by decide)
    (by decide)).2.1

theorem addLoop_head (host : Host) (added : List GoString) (d : GoString)
    (rest : List GoString) :
    ∃ tail, (addLoop host added (d :: rest)).2 = Call.Add d :: tail := by
  unfold addLoop
  cases host.Add added d with
  | some err => exact ⟨[], rfl⟩
  | none => exact ⟨_, rfl⟩

theorem adds_fatal (err : OsError) : adds [Call.log (.fatalError err), Call.Exit 1] = [] := rfl

/-- The directories `main` submits under a valid environment once the watcher
is created: those the loop over `configDirs` submits. -/
theorem adds_main_of_valid {host : Host} (h : validEnv host) (hnw : host.NewWatcher = none) :
    adds (main host).2 = adds (addLoop host [] (configDirs host)).2 := by
  rw [main_of_valid h]
  simp only [hnw]
  cases (addLoop host [] (configDirs host)).1 with
  | some err =>
    simp only [adds_append, (startupCalls_observed host).2.1, adds_fatal, List.nil_append,
      List.append_nil]
  | none => simp only [adds_append, (startupCalls_observed host).2.1, List.nil_append]

/-- C3, as the code has it: the program reaches the creation of the watcher
exactly when the environment is valid (`CONFIG_DIR` not empty, exactly one of
`PROCESS_NAME` and `PROCESS_PID_FILE` not empty, `RELOAD_SIGNAL` empty or a
signal name), and reaches the registration of directories exactly when, in
addition, the watcher is created without error; under any other environment
it exits with status 1 after one log line, with no directory registered and
no signal sent, whatever events would follow. -/
theorem validation_before_watch (host : Host) (received : List (Recv × World)) :
    (Call.NewWatcher ∈ (main host).2 ↔ validEnv host) ∧
    (adds (main host).2 ≠ [] ↔ validEnv host ∧ host.NewWatcher = none) ∧
    (validEnv host → host.NewWatcher = none →
      (adds (main host).2).head? = (configDirs host).head?) ∧
    (¬ validEnv host →
      (main host).1 = .exited 1 ∧
      (∃ line, run host received = [.log line, .Exit 1]) ∧
      adds (run host received) = [] ∧ kills (run host received) = []) := by
  by_cases hv : validEnv host
  · have hmain := main_of_valid hv
    have hso := startupCalls_observed host
    refine ⟨⟨fun _ => hv, fun _ => ?_⟩, ?_, ?_, fun h => absurd hv h⟩
    · rw [hmain]
      cases host.NewWatcher with
      | some err => exact List.mem_append_left _ hso.2.2
      | none =>
        dsimp only
        cases (addLoop host [] (configDirs host)).1 with
        | some err => exact List.mem_append_left _ (List.mem_append_left _ hso.2.2)
        | none => exact List.mem_append_left _ hso.2.2
    · cases hnw : host.NewWatcher with
      | some err =>
        rw [hmain]
        simp only [hnw, adds_append, hso.2.1, adds_fatal]
        simp
      | none =>
        rw [adds_main_of_valid hv hnw]
        cases hd : configDirs host with
        | nil => exact absurd hd (Split_fields _ _).1
        | cons d rest =>
          obtain ⟨tail, ht⟩ := addLoop_head host [] d rest
          rw [ht]
          simp [adds, hv]
    · intro _ hnw
      rw [adds_main_of_valid hv hnw]
      cases hd : configDirs host with
      | nil => exact absurd hd (Split_fields _ _).1
      | cons d rest =>
        obtain ⟨tail, ht⟩ := addLoop_head host [] d rest
        rw [ht]
        rfl
  · obtain ⟨line, hline⟩ := main_of_invalid hv
    have hrun : run host received = [.log line, .Exit 1] := by
      rw [@run_of_exited host 1 (by rw [hline]) received, hline]
    refine ⟨⟨fun hm => ?_, fun h => absurd h hv⟩, ⟨fun hm => ?_, fun h => absurd h.1 hv⟩, 
      fun h => absurd h hv, fun _ => ⟨by rw [hline], ⟨line, hrun⟩, by rw [hrun]; rfl,
        by rw [hrun]; rfl⟩⟩
    · rw [hline] at hm
      simp at hm
    · rw [hline] at hm
      exact absurd rfl hm

/-- C3 fails when the watcher cannot be created: the environment is valid and
the creation of the watcher is reached, yet `main` exits before any directory
is submitted for registration. -/
theorem valid_env_watcher_failure :
    validEnv (exampleHost pidFileEnv (some "too many open files")) ∧
    Call.NewWatcher ∈ (main (exampleHost pidFileEnv (some "too many open files"))).2 ∧
    adds (main (exampleHost pidFileEnv (some "too many open files"))).2 = [] ∧
    (main (exampleHost pidFileEnv (some "too many open files"))).1 = .exited 1 := by
  refine ⟨by decide, by decide, by decide, by decide⟩

/-- C7: under a valid environment and with the watcher created, the
directories `main` submits for registration are the fields of `CONFIG_DIR`
split on `,` (joined by `,` they give the value back and none holds a `,`:
nothing is trimmed or removed), in order; when every field registers they are
all submitted and `main` reaches its running state; the first field that fails
ends the process with status 1 and no later field is submitted; and `main`
reaches its running state only if every field registered. -/
theorem registration_in_order (host : Host) (hvalid : validEnv host)
    (hnw : host.NewWatcher = none) :
    configDirs host = Split (host.Getenv "CONFIG_DIR".toList) ',' ∧
    [','].intercalate (configDirs host) = host.Getenv "CONFIG_DIR".toList ∧
    (∀ f ∈ configDirs host, ',' ∉ f) ∧
    ((∀ i dir, (configDirs host)[i]? = some dir →
        host.Add ((configDirs host).take i) dir = none) →
      adds (main host).2 = configDirs host ∧ (main host).1 = .running (configOf host)) ∧
    (∀ i dir err, (configDirs host)[i]? = some dir →
      (∀ j d, j < i → (configDirs host)[j]? = some d →
        host.Add ((configDirs host).take j) d = none) →
      host.Add ((configDirs host).take i) dir = some err →
      adds (main host).2 = (configDirs host).take (i + 1) ∧
      (main host).1 = .exited 1 ∧
      ∃ calls, (main host).2 = calls ++ [.Add dir, .log (.fatalError err), .Exit 1]) ∧
    (∀ cfg, (main host).1 = .running cfg →
      ∀ i dir, (configDirs host)[i]? = some dir →
        host.Add ((configDirs host).take i) dir = none) := by
  have hf := Split_fields (host.Getenv "CONFIG_DIR".toList) ','
  have hmain := main_of_valid hvalid
  simp only [hnw] at hmain
  refine ⟨rfl, hf.2.1, hf.2.2, ?_, ?_, ?_⟩
  · intro hall
    have hl := addLoop_all host (configDirs host) [] (by simpa using hall)
    rw [adds_main_of_valid hvalid hnw, hmain, hl]
    exact ⟨adds_map_Add _, rfl⟩
  · intro i dir err hi hpre hfail
    have hl := addLoop_first_failure host (configDirs host) [] i dir err hi
      (by simpa using hpre) (by simpa using hfail)
    rw [adds_main_of_valid hvalid hnw, hmain, hl]
    refine ⟨adds_map_Add _, rfl, ?_⟩
    refine ⟨startupCalls host ++ ((configDirs host).take i).map Call.Add, ?_⟩
    have htake : (configDirs host).take (i + 1) = (configDirs host).take i ++ [dir] := by
      rw [List.take_succ, hi]
      rfl
    simp [htake]
  · intro cfg hrun i dir hi
    have h3 := (main_running hrun).2.2.1
    have := addLoop_none host (configDirs host) [] h3 i dir hi
    simpa using this

/-- An example of C7: `CONFIG_DIR=/etc/a,,/etc/b` with every directory
registering: the three fields, the empty one included, are submitted in order. -/
theorem registration_in_order_witness :
    adds (main (exampleHost [("CONFIG_DIR".toList, "/etc/a,,/etc/b".toList),
      ("PROCESS_NAME".toList, "myapp".toList)] none)).2 =
      ["/etc/a".toList, [], "/etc/b".toList] :=
  ((registration_in_order (exampleHost [("CONFIG_DIR".toList, "/etc/a,,/etc/b".toList),
      ("PROCESS_NAME".toList, "myapp".toList)] none) (by decide) rfl).2.2.2.1
    (fun _ _ _ => rfl)).1.trans (by decide)

end ConfigReloader
